import Mathlib

/-!
# Health-record chaincode (`chaincode/healthcc/healthcc.go`)

A shallow embedding of the chaincode and of the part of its host it talks to.

* Go `string` is `String`; `[]byte` is `List Nat`.
* `error` is `GoError`; a Go result `(x, err)` is `Except GoError _`.
* A stored value is the JSON document it denotes (`Value`): `json.Marshal` builds the document
  from the struct tags, `json.Unmarshal` reads it back field by field.
* The ledger stub is explicit state: the committed world state (`World`) is read by
  `GetState`/`GetStateByRange`; `PutState` appends to the write set of the running transaction
  (`Tx`), which also counts the readings taken from the clock.
* What the host and the Go libraries supply is a parameter: `Env` for one invocation
  (transaction id, clock, random source, stub failures), `Lib` for the pure library functions
  (SHA-256, the GCM seal/open pair, base64, the RFC 3339 time format).
-/

namespace Healthcc

/-! ## Data model -/

/-- A wall-clock instant: `sec` is what `Time.Unix()` returns, `nsec` the nanoseconds within that
second. -/
structure Time where
  sec : Int
  nsec : Nat
  deriving DecidableEq, Repr

/-- The zero `time.Time` (January 1, year 1, 00:00:00 UTC). -/
def Time.zero : Time := ⟨-62135596800, 0⟩

/-- Go `t.Unix()`. -/
def Time.Unix (t : Time) : Int := t.sec

/-- Go `HealthRecord`. -/
structure HealthRecord where
  RecordID : String
  PatientID : String
  DoctorID : String
  RawData : String
  Hash : String
  EncryptedData : String
  Hospital : String
  Timestamp : Time
  Source : String
  CreatedAt : Time
  UpdatedAt : Time
  deriving DecidableEq, Repr

/-- Go `AuditLog`. -/
structure AuditLog where
  TxID : String
  RecordID : String
  Action : String
  UserID : String
  Timestamp : Time
  Details : String
  deriving DecidableEq, Repr

/-- Go `error` values the chaincode can return. -/
inductive GoError where
  /-- Text built by `fmt.Errorf` with no wrapped error. -/
  | errorf (text : String)
  /-- The value of `fmt.Errorf(text + "%v", cause)`. -/
  | wrap (text : String) (cause : GoError)
  /-- An error handed back by the ledger stub. -/
  | stub (text : String)
  /-- The `aes.KeySizeError` for a key of `n` bytes. -/
  | keySize (n : Nat)
  /-- The random source could not fill the buffer. -/
  | rand
  /-- The `base64.CorruptInputError`. -/
  | corruptInput
  /-- GCM authentication failed in `Open`. -/
  | authFailed
  /-- Any error of `json.Unmarshal`. -/
  | json
  deriving DecidableEq, Repr

/-! ## Stored values as JSON documents -/

/-- A JSON value at a field of a stored document. -/
inductive JVal where
  /-- A JSON string. -/
  | str (s : String)
  /-- The JSON string `Time.MarshalJSON` writes for `t`. -/
  | time (t : Time)
  /-- The literal `null`. -/
  | null
  /-- Any other JSON value (number, boolean, array, object). -/
  | other
  deriving DecidableEq, Repr

/-- The bytes stored under a ledger key, as the JSON text they are. -/
inductive Value where
  /-- A JSON object, its members in order, each under the struct tag the decoder matches its
  name to. -/
  | object (members : List (String × JVal))
  /-- The JSON literal `null`. -/
  | null
  /-- Bytes that are not a JSON object or `null`. -/
  | malformed (raw : String)
  deriving DecidableEq, Repr

/-- Pure functions of the Go standard library the chaincode calls. -/
structure Lib where
  /-- The 32 bytes of `sha256.Sum256([]byte(s))`. -/
  sha256 : String → List Nat
  /-- The sealed data (ciphertext and tag) of `gcm.Seal` under a key and a nonce, no
  additional data. -/
  gcmSeal : List Nat → List Nat → String → List Nat
  /-- The plaintext `gcm.Open` recovers from sealed data, `none` when authentication fails. -/
  gcmOpen : List Nat → List Nat → List Nat → Option String
  /-- Go `base64.StdEncoding.EncodeToString`. -/
  b64encode : List Nat → String
  /-- Go `base64.StdEncoding.DecodeString`, `none` on corrupt input. -/
  b64decode : String → Option (List Nat)
  /-- The RFC 3339 text of an instant. -/
  rfc3339 : Time → String
  /-- The instant an RFC 3339 text denotes, `none` when it is not one. -/
  parseTime : String → Option Time

/-- What the host supplies to one invocation. -/
structure Env where
  /-- The value of `GetTxID()`. -/
  txID : String
  /-- The n-th reading of `time.Now()` during the invocation (from 0). -/
  clock : Nat → Time
  /-- The error of `GetState(key)`, if the stub fails it. -/
  getFault : String → Option String
  /-- The error of `PutState(key, _)`, if the stub fails it. -/
  putFault : String → Option String
  /-- The error of `GetStateByRange(start, end)`, if the stub fails it. -/
  rangeFault : String → String → Option String
  /-- The error of the iterator's `Next()` at a key, if the stub fails it. -/
  nextFault : String → Option String
  /-- Whether reading from `rand.Reader` fails. -/
  randFault : Bool
  /-- The i-th byte `rand.Reader` yields. -/
  randByte : Nat → Nat

/-- The committed world state: ledger keys with their values. -/
abbrev World := List (String × Value)

/-- The running transaction: the writes `PutState` has buffered, oldest first, and the number of
clock readings taken so far. -/
structure Tx where
  writes : List (String × Value)
  ticks : Nat
  deriving DecidableEq, Repr

/-- The transaction state an invocation starts with. -/
def Tx.start : Tx := ⟨[], 0⟩

/-! ## Ledger service -/

/-- The value the world state holds at a key. -/
def World.get : World → String → Option Value
  | [], _ => none
  | (k', v) :: rest, k => if k' = k then some v else World.get rest k

/-- The world state with `k` set to `v`. -/
def World.put : World → String → Value → World
  | [], k, v => [(k, v)]
  | (k', v') :: rest, k, v => if k' = k then (k, v) :: rest else (k', v') :: World.put rest k v

/-- The world state after a write set has been applied, oldest write first. -/
def World.commit (w : World) (writes : List (String × Value)) : World :=
  writes.foldl (fun acc kv => World.put acc kv.1 kv.2) w

/-- Ledger key order: bytewise lexicographic, which for text is the order of the code points. -/
def keyLE (a b : String × Value) : Prop := a.1.toList ≤ b.1.toList

instance : DecidableRel keyLE := fun a b => inferInstanceAs (Decidable (a.1.toList ≤ b.1.toList))

/-- Whether a key lies in the range `[startKey, endKey)`. -/
def inRange (startKey endKey k : String) : Bool :=
  decide (startKey.toList ≤ k.toList) && decide (k.toList < endKey.toList)

/-- The entries an iterator over `[startKey, endKey)` yields: those in range, in key order. -/
def World.range (w : World) (startKey endKey : String) : List (String × Value) :=
  List.insertionSort keyLE (w.filter fun kv => inRange startKey endKey kv.1)

/-- Stub `GetState`: reads the committed world state. -/
def GetState (env : Env) (w : World) (key : String) : Except GoError (Option Value) :=
  match env.getFault key with
  | some e => .error (.stub e)
  | none => .ok (w.get key)

/-- Stub `PutState`: buffers the write in the transaction, or fails. -/
def PutState (env : Env) (key : String) (value : Value) (tx : Tx) : Option GoError × Tx :=
  match env.putFault key with
  | some e => (some (.stub e), tx)
  | none => (none, { tx with writes := tx.writes ++ [(key, value)] })

/-- Stub `GetStateByRange`: the entries of the iterator, or the error opening it. -/
def GetStateByRange (env : Env) (w : World) (startKey endKey : String) :
    Except GoError (List (String × Value)) :=
  match env.rangeFault startKey endKey with
  | some e => .error (.stub e)
  | none => .ok (w.range startKey endKey)

/-- Go `time.Now()`: the next reading of the clock. -/
def Now (env : Env) (tx : Tx) : Time × Tx :=
  (env.clock tx.ticks, { tx with ticks := tx.ticks + 1 })

/-- Modelled from the spec: the host's transaction processing is not part of the chaincode
source. One invocation is one unit of work (spec sections 5 and 7): it starts with an empty
write set, and its writes reach the world state only when it returns without error. -/
def submit {α : Type} (op : World → Tx → Except GoError α × Tx) (w : World) :
    Except GoError α × World :=
  match op w Tx.start with
  | (.ok a, tx) => (.ok a, w.commit tx.writes)
  | (.error e, _) => (.error e, w)

/-! ## Formatting -/

/-- The decimal digit character of `d % 10`. -/
def digitChar (d : Nat) : Char := Char.ofNat (48 + d % 10)

/-- Decimal digits of `n`, most significant first, in front of `acc`. -/
def natDigits : Nat → Nat → List Char → List Char
  | 0, n, acc => digitChar n :: acc
  | fuel + 1, n, acc =>
    if n < 10 then digitChar n :: acc else natDigits fuel (n / 10) (digitChar n :: acc)

/-- Go `%d` of an integer. -/
def Sprintf_d : Int → String
  | .ofNat n => ⟨natDigits n n []⟩
  | .negSucc n => ⟨'-' :: natDigits (n + 1) (n + 1) []⟩

/-- Lowercase hex digit of `n % 16`. -/
def hexDigit (n : Nat) : Char :=
  if n % 16 < 10 then Char.ofNat (48 + n % 16) else Char.ofNat (87 + n % 16)

/-- Go `fmt.Sprintf("%x", bytes)`: two lowercase hex digits per byte. -/
def Sprintf_x (bytes : List Nat) : String :=
  ⟨bytes.flatMap fun b => [hexDigit (b / 16), hexDigit b]⟩

/-- Go `%t` of a boolean. -/
def Sprintf_t (b : Bool) : String := if b then "true" else "false"

/-- The audit key `fmt.Sprintf("AUDIT_%s_%d", recordID, unix)`. -/
def auditKey (recordID : String) (unix : Int) : String :=
  "AUDIT_" ++ recordID ++ "_" ++ Sprintf_d unix

/-! ## JSON encoding -/

/-- Go `json.Marshal` of a `HealthRecord`, by its struct tags. It has no error for the instants a
running clock reads (years 0 to 9999). -/
def marshalRecord (r : HealthRecord) : Value :=
  .object [("recordId", .str r.RecordID), ("patientId", .str r.PatientID),
    ("doctorId", .str r.DoctorID), ("rawData", .str r.RawData), ("hash", .str r.Hash),
    ("encryptedData", .str r.EncryptedData), ("hospital", .str r.Hospital),
    ("timestamp", .time r.Timestamp), ("source", .str r.Source),
    ("createdAt", .time r.CreatedAt), ("updatedAt", .time r.UpdatedAt)]

/-- Go `json.Marshal` of an `AuditLog`, by its struct tags. -/
def marshalAudit (a : AuditLog) : Value :=
  .object [("txId", .str a.TxID), ("recordId", .str a.RecordID), ("action", .str a.Action),
    ("userId", .str a.UserID), ("timestamp", .time a.Timestamp), ("details", .str a.Details)]

/-- Decoding an object into a `string` field tagged `name`, from its current value `cur`: the
members are taken in order, each member of that name sets the field (a string, or the text of a
time), `null` leaves it as it is, and any other JSON value is a type error, which `json.Unmarshal`
returns once it has seen the whole object. -/
def stringField (L : Lib) : List (String × JVal) → String → String → Option String
  | [], _, cur => some cur
  | (k, v) :: rest, name, cur =>
    if k = name then
      match v with
      | .str s => stringField L rest name s
      | .time t => stringField L rest name (L.rfc3339 t)
      | .null => stringField L rest name cur
      | .other => none
    else stringField L rest name cur

/-- Decoding an object into a `time.Time` field tagged `name`, from its current value `cur`:
as `stringField`, a JSON string being parsed as RFC 3339 by `Time.UnmarshalJSON`. -/
def timeField (L : Lib) : List (String × JVal) → String → Time → Option Time
  | [], _, cur => some cur
  | (k, v) :: rest, name, cur =>
    if k = name then
      match v with
      | .str s =>
        match L.parseTime s with
        | some t => timeField L rest name t
        | none => none
      | .time t => timeField L rest name t
      | .null => timeField L rest name cur
      | .other => none
    else timeField L rest name cur

/-- Go `json.Unmarshal` into a zero `HealthRecord`. -/
def unmarshalRecord (L : Lib) : Value → Except GoError HealthRecord
  | .malformed _ => .error .json
  | .null => .ok ⟨"", "", "", "", "", "", "", Time.zero, "", Time.zero, Time.zero⟩
  | .object ms =>
    match stringField L ms "recordId" "", stringField L ms "patientId" "",
      stringField L ms "doctorId" "", stringField L ms "rawData" "", stringField L ms "hash" "",
      stringField L ms "encryptedData" "", stringField L ms "hospital" "",
      timeField L ms "timestamp" Time.zero, stringField L ms "source" "",
      timeField L ms "createdAt" Time.zero, timeField L ms "updatedAt" Time.zero with
    | some a, some b, some c, some d, some e, some f, some g, some h, some i, some j, some k =>
      .ok ⟨a, b, c, d, e, f, g, h, i, j, k⟩
    | _, _, _, _, _, _, _, _, _, _, _ => .error .json

/-- Go `json.Unmarshal` into a zero `AuditLog`. -/
def unmarshalAudit (L : Lib) : Value → Except GoError AuditLog
  | .malformed _ => .error .json
  | .null => .ok ⟨"", "", "", "", Time.zero, ""⟩
  | .object ms =>
    match stringField L ms "txId" "", stringField L ms "recordId" "",
      stringField L ms "action" "", stringField L ms "userId" "",
      timeField L ms "timestamp" Time.zero, stringField L ms "details" "" with
    | some a, some b, some c, some d, some e, some f => .ok ⟨a, b, c, d, e, f⟩
    | _, _, _, _, _, _ => .error .json

/-! ## Crypto helpers -/

/-- The bytes of a text of one-byte characters, as `[]byte(s)` gives them. -/
def bytesOf (s : String) : List Nat := s.toList.map Char.toNat

/-- Go `var hospitalKey = []byte("arogya-hospital-key-32-bytes!!")`. -/
def hospitalKey : List Nat := bytesOf "arogya-hospital-key-32-bytes!!"

/-- Go `aes.NewCipher`: accepts keys of 16, 24 or 32 bytes only. -/
def NewCipher (key : List Nat) : Except GoError (List Nat) :=
  if key.length = 16 ∨ key.length = 24 ∨ key.length = 32 then .ok key
  else .error (.keySize key.length)

/-- Go `gcm.NonceSize()` of the standard GCM. -/
def NonceSize : Nat := 12

/-- Go `encryptAES`. -/
def encryptAES (L : Lib) (env : Env) (plaintext : String) (key : List Nat) :
    Except GoError String :=
  match NewCipher key with
  | .error e => .error e
  | .ok block =>
    if env.randFault then .error .rand
    else
      let nonce := (List.range NonceSize).map env.randByte
      let ciphertext := nonce ++ L.gcmSeal block nonce plaintext
      .ok (L.b64encode ciphertext)

/-- Go `decryptAES`. -/
def decryptAES (L : Lib) (ciphertext : String) (key : List Nat) : Except GoError String :=
  match L.b64decode ciphertext with
  | none => .error .corruptInput
  | some data =>
    match NewCipher key with
    | .error e => .error e
    | .ok block =>
      let nonceSize := NonceSize
      if data.length < nonceSize then .error (.errorf "ciphertext too short")
      else
        match L.gcmOpen block (data.take nonceSize) (data.drop nonceSize) with
        | none => .error .authFailed
        | some plaintext => .ok plaintext

/-! ## Chaincode operations

Each operation takes the committed world state and the transaction state and returns its Go
result with the transaction state it leaves. `AddRecordWith` and `DecryptRecordWith` are the
bodies of `AddRecord` and `DecryptRecord` with the key they pass to the crypto helpers as a
parameter; the chaincode passes `hospitalKey`. -/

/-- Go `InitLedger`. -/
def InitLedger (env : Env) (_w : World) (tx : Tx) : Except GoError Unit × Tx :=
  let (now, tx) := Now env tx
  let auditLog : AuditLog :=
    ⟨env.txID, "SYSTEM", "INIT_LEDGER", "SYSTEM", now, "Hyperledger Fabric network initialized"⟩
  let auditJSON := marshalAudit auditLog
  match PutState env "AUDIT_INIT" auditJSON tx with
  | (some e, tx) => (.error e, tx)
  | (none, tx) => (.ok (), tx)

/-- Go `AddRecord`, for a given encryption key. -/
def AddRecordWith (key : List Nat) (L : Lib) (env : Env)
    (recordID patientID doctorID description hospital source : String)
    (w : World) (tx : Tx) : Except GoError Unit × Tx :=
  match GetState env w recordID with
  | .error err => (.error (.wrap "failed to read from world state: " err), tx)
  | .ok (some _) => (.error (.errorf ("record " ++ recordID ++ " already exists")), tx)
  | .ok none =>
    let rawData := "Patient: " ++ patientID ++ ", Doctor: " ++ doctorID ++
      ", Description: " ++ description ++ ", Hospital: " ++ hospital
    let hash := L.sha256 rawData
    let hashString := Sprintf_x hash
    match encryptAES L env rawData key with
    | .error err => (.error (.wrap "failed to encrypt data: " err), tx)
    | .ok encryptedData =>
      let (timestamp, tx) := Now env tx
      let (createdAt, tx) := Now env tx
      let (updatedAt, tx) := Now env tx
      let record : HealthRecord :=
        ⟨recordID, patientID, doctorID, rawData, hashString, encryptedData, hospital,
          timestamp, source, createdAt, updatedAt⟩
      let recordJSON := marshalRecord record
      match PutState env recordID recordJSON tx with
      | (some err, tx) => (.error err, tx)
      | (none, tx) =>
        let (now, tx) := Now env tx
        let auditLog : AuditLog :=
          ⟨env.txID, recordID, "ADD_RECORD", doctorID, now,
            "Record added for patient " ++ patientID ++ " at " ++ hospital⟩
        let auditJSON := marshalAudit auditLog
        let (now, tx) := Now env tx
        let auditKey := auditKey recordID now.Unix
        let (_, tx) := PutState env auditKey auditJSON tx
        (.ok (), tx)

/-- Go `AddRecord`. -/
def AddRecord (L : Lib) (env : Env)
    (recordID patientID doctorID description hospital source : String)
    (w : World) (tx : Tx) : Except GoError Unit × Tx :=
  AddRecordWith hospitalKey L env recordID patientID doctorID description hospital source w tx

/-- Go `QueryRecord`. -/
def QueryRecord (L : Lib) (env : Env) (recordID : String) (w : World) (tx : Tx) :
    Except GoError HealthRecord × Tx :=
  match GetState env w recordID with
  | .error err => (.error (.wrap "failed to read from world state: " err), tx)
  | .ok none => (.error (.errorf ("record " ++ recordID ++ " does not exist")), tx)
  | .ok (some recordJSON) =>
    match unmarshalRecord L recordJSON with
    | .error err => (.error err, tx)
    | .ok record =>
      let (now, tx) := Now env tx
      let auditLog : AuditLog :=
        ⟨env.txID, recordID, "QUERY_RECORD", "SYSTEM", now, "Record " ++ recordID ++ " queried"⟩
      let auditJSON := marshalAudit auditLog
      let (now, tx) := Now env tx
      let auditKey := auditKey recordID now.Unix
      let (_, tx) := PutState env auditKey auditJSON tx
      (.ok record, tx)

/-- Go `VerifyIntegrity`. -/
def VerifyIntegrity (L : Lib) (env : Env) (recordID : String) (w : World) (tx : Tx) :
    Except GoError Bool × Tx :=
  match QueryRecord L env recordID w tx with
  | (.error err, tx) => (.error err, tx)
  | (.ok record, tx) =>
    let hash := L.sha256 record.RawData
    let computedHash := Sprintf_x hash
    let isValid := decide (computedHash = record.Hash)
    let (now, tx) := Now env tx
    let auditLog : AuditLog :=
      ⟨env.txID, recordID, "VERIFY_INTEGRITY", "SYSTEM", now,
        "Integrity check: " ++ Sprintf_t isValid⟩
    let auditJSON := marshalAudit auditLog
    let (now, tx) := Now env tx
    let auditKey := auditKey recordID now.Unix
    let (_, tx) := PutState env auditKey auditJSON tx
    (.ok isValid, tx)

/-- Go `DecryptRecord`, for a given decryption key. -/
def DecryptRecordWith (key : List Nat) (L : Lib) (env : Env) (recordID : String)
    (w : World) (tx : Tx) : Except GoError String × Tx :=
  match QueryRecord L env recordID w tx with
  | (.error err, tx) => (.error err, tx)
  | (.ok record, tx) =>
    match decryptAES L record.EncryptedData key with
    | .error err => (.error (.wrap "failed to decrypt data: " err), tx)
    | .ok decryptedData =>
      let (now, tx) := Now env tx
      let auditLog : AuditLog :=
        ⟨env.txID, recordID, "DECRYPT_RECORD", "AUTHORIZED_USER", now,
          "Record decrypted for authorized access"⟩
      let auditJSON := marshalAudit auditLog
      let (now, tx) := Now env tx
      let auditKey := auditKey recordID now.Unix
      let (_, tx) := PutState env auditKey auditJSON tx
      (.ok decryptedData, tx)

/-- Go `DecryptRecord`. -/
def DecryptRecord (L : Lib) (env : Env) (recordID : String) (w : World) (tx : Tx) :
    Except GoError String × Tx :=
  DecryptRecordWith hospitalKey L env recordID w tx

/-- The loop of `GetAllRecords` over the entries an iterator yields. -/
def collectRecords (L : Lib) (env : Env) :
    List (String × Value) → List HealthRecord → Except GoError (List HealthRecord)
  | [], records => .ok records
  | (k, v) :: rest, records =>
    match env.nextFault k with
    | some e => .error (.stub e)
    | none =>
      match unmarshalRecord L v with
      | .error err => .error err
      | .ok record => collectRecords L env rest (records ++ [record])

/-- Go `GetAllRecords`. -/
def GetAllRecords (L : Lib) (env : Env) (w : World) (tx : Tx) :
    Except GoError (List HealthRecord) × Tx :=
  match GetStateByRange env w "REC" "RECzzz" with
  | .error err => (.error err, tx)
  | .ok resultsIterator => (collectRecords L env resultsIterator [], tx)

/-- The loop of `GetAuditTrail` over the entries an iterator yields. -/
def collectAudits (L : Lib) (env : Env) :
    List (String × Value) → List AuditLog → Except GoError (List AuditLog)
  | [], auditLogs => .ok auditLogs
  | (k, v) :: rest, auditLogs =>
    match env.nextFault k with
    | some e => .error (.stub e)
    | none =>
      match unmarshalAudit L v with
      | .error err => .error err
      | .ok auditLog => collectAudits L env rest (auditLogs ++ [auditLog])

/-- Go `GetAuditTrail`. -/
def GetAuditTrail (L : Lib) (env : Env) (recordID : String) (w : World) (tx : Tx) :
    Except GoError (List AuditLog) × Tx :=
  let auditPrefix := "AUDIT_" ++ recordID
  match GetStateByRange env w auditPrefix (auditPrefix ++ "zzz") with
  | .error err => (.error err, tx)
  | .ok resultsIterator => (collectAudits L env resultsIterator [], tx)

/-! ## Concrete hosts and libraries for evaluation -/

/-- A host without failures: the given transaction id and clock, a random source of zeros. -/
def Env.calm (txID : String) (clock : Nat → Time) : Env :=
  ⟨txID, clock, fun _ => none, fun _ => none, fun _ _ => none, fun _ => none, false, fun _ => 0⟩

/-- A host as `Env.calm` whose stub fails every `PutState`. -/
def Env.putDown (txID : String) (clock : Nat → Time) : Env :=
  { Env.calm txID clock with putFault := fun _ => some "ledger unavailable" }

/-- A small library instance to evaluate with: the digest is the text length, sealing appends
the key length as a tag, the encoding maps bytes to characters. -/
def Lib.toy : Lib where
  sha256 := fun s => [s.length % 256]
  gcmSeal := fun key _ p => bytesOf p ++ [key.length]
  gcmOpen := fun key _ c =>
    if c.getLast? = some key.length then some ⟨(c.dropLast).map Char.ofNat⟩ else none
  b64encode := fun bs => ⟨bs.map Char.ofNat⟩
  b64decode := fun s => some (bytesOf s)
  rfc3339 := fun t => Sprintf_d t.sec
  parseTime := fun _ => none

/-- A clock that reads second `s` at every reading. -/
def clockAt (s : Int) : Nat → Time := fun _ => ⟨s, 0⟩

/-- A key of 32 bytes. -/
def key32 : List Nat := List.replicate 32 7

/-- The number a list of decimal digit characters denotes, continuing from `acc`. -/
def decVal (acc : Nat) (ds : List Char) : Nat :=
  ds.foldl (fun a c => a * 10 + (c.toNat - 48)) acc

/-- The plaintext of the record used in the examples. -/
def sampleRaw : String := "Patient: P1, Doctor: D1, Description: flu, Hospital: CityHosp"

/-- A stored record used in the examples: what `AddRecordWith key32` builds from
("REC001","P1","D1","flu","CityHosp","EHR") with `Lib.toy` at second 5. -/
def sampleRecord : HealthRecord :=
  ⟨"REC001", "P1", "D1", sampleRaw, "3d",
    Lib.toy.b64encode (List.replicate 12 0 ++ Lib.toy.gcmSeal key32 (List.replicate 12 0) sampleRaw),
    "CityHosp", ⟨5, 0⟩, "EHR", ⟨5, 0⟩, ⟨5, 0⟩⟩

/-- A ledger holding `sampleRecord` at its id. -/
def sampleWorld : World := [("REC001", marshalRecord sampleRecord)]

/-- A clock whose n-th reading is second `n`. -/
def clockTicking : Nat → Time := fun n => ⟨n, 0⟩

instance : IsTotal (String × Value) keyLE := ⟨fun a b => le_total a.1.toList b.1.toList⟩

instance : IsTrans (String × Value) keyLE := ⟨fun _ _ _ h1 h2 => le_trans h1 h2⟩

/-- The audit entry a ledger entry decodes to, the zero entry when it does not decode. -/
def decodeAudit (L : Lib) (kv : String × Value) : AuditLog :=
  match unmarshalAudit L kv.2 with
  | .ok a => a
  | .error _ => ⟨"", "", "", "", Time.zero, ""⟩

/-- The record a ledger entry decodes to, the zero record when it does not decode. -/
def decodeRecord (L : Lib) (kv : String × Value) : HealthRecord :=
  match unmarshalRecord L kv.2 with
  | .ok r => r
  | .error _ => ⟨"", "", "", "", "", "", "", Time.zero, "", Time.zero, Time.zero⟩

/-- A ledger holding the sample record and two audit entries for it, the later one first. -/
def trailWorld : World :=
  [("REC001", marshalRecord sampleRecord),
    ("AUDIT_REC001_6",
      marshalAudit ⟨"tx2", "REC001", "QUERY_RECORD", "SYSTEM", ⟨6, 0⟩, "Record REC001 queried"⟩),
    ("AUDIT_REC001_5",
      marshalAudit ⟨"tx1", "REC001", "ADD_RECORD", "D1", ⟨5, 0⟩,
        "Record added for patient P1 at CityHosp"⟩)]

/-- A ledger holding records inside and outside the range of the listing. -/
def listingWorld : World :=
  [("RECzzzz", marshalRecord { sampleRecord with RecordID := "RECzzzz" }),
    ("REC002", marshalRecord { sampleRecord with RecordID := "REC002" }),
    ("PAT1", marshalRecord { sampleRecord with RecordID := "PAT1" }),
    ("REC001", marshalRecord sampleRecord)]

/-! ## Properties -/

theorem World.get_put_self (w : World) (k : String) (v : Value) : (w.put k v).get k = some v := by
  induction w with
  | nil => simp [World.put, World.get]
  | cons hd tl ih =>
    obtain ⟨k', v'⟩ := hd
    by_cases h : k' = k
    · simp [World.put, World.get, h]
    · simp [World.put, World.get, h, ih]

theorem World.get_put_of_ne (w : World) (k k' : String) (v : Value) (hne : k' ≠ k) :
    (w.put k v).get k' = w.get k' := by
  induction w with
  | nil => simp [World.put, World.get, hne.symm]
  | cons hd tl ih =>
    obtain ⟨k0, v0⟩ := hd
    by_cases h : k0 = k
    · subst h
      simp [World.put, World.get, hne.symm]
    · by_cases h' : k0 = k'
      · subst h'
        simp [World.put, World.get, h]
      · simp [World.put, World.get, h, h', ih]

theorem digitChar_val (d : Nat) : (digitChar d).toNat - 48 = d % 10 := by
  have h : ∀ k, k < 10 → (Char.ofNat (48 + k)).toNat - 48 = k := by decide
  exact h (d % 10) (Nat.mod_lt _ (by decide))

theorem digitChar_ne_minus (d : Nat) : digitChar d ≠ '-' := by
  have h : ∀ k, k < 10 → Char.ofNat (48 + k) ≠ '-' := by decide
  exact h (d % 10) (Nat.mod_lt _ (by decide))

theorem decVal_natDigits (fuel n : Nat) (acc : List Char) (h : n ≤ fuel) :
    decVal 0 (natDigits fuel n acc) = decVal n acc := by
  induction fuel generalizing n acc with
  | zero =>
    have : n = 0 := by omega
    subst this
    simp [natDigits, decVal, digitChar_val]
  | succ fuel ih =>
    unfold natDigits
    split
    · rename_i hlt
      simp [decVal, digitChar_val, Nat.mod_eq_of_lt hlt]
    · rename_i hge
      rw [ih (n / 10) _ (by omega)]
      simp only [decVal, List.foldl_cons, digitChar_val]
      congr 1
      omega

theorem natDigits_head (fuel n : Nat) (acc : List Char) :
    ∃ d rest, natDigits fuel n acc = digitChar d :: rest := by
  induction fuel generalizing n acc with
  | zero => exact ⟨n, acc, rfl⟩
  | succ fuel ih =>
    unfold natDigits
    split
    · exact ⟨n, acc, rfl⟩
    · exact ih _ _

theorem natDigits_injective (m n : Nat) (h : natDigits m m [] = natDigits n n []) : m = n := by
  have := congrArg (decVal 0) h
  rw [decVal_natDigits _ _ _ (le_refl _), decVal_natDigits _ _ _ (le_refl _)] at this
  simpa [decVal] using this

theorem Sprintf_d_injective (a b : Int) (h : Sprintf_d a = Sprintf_d b) : a = b := by
  have h := congrArg String.data h
  cases a with
  | ofNat m =>
    cases b with
    | ofNat n =>
      simp only [Sprintf_d] at h
      rw [natDigits_injective m n h]
    | negSucc n =>
      simp only [Sprintf_d] at h
      obtain ⟨d, rest, hd⟩ := natDigits_head m m []
      rw [hd] at h
      simp only [List.cons.injEq] at h
      exact absurd h.1 (digitChar_ne_minus d)
  | negSucc m =>
    cases b with
    | ofNat n =>
      simp only [Sprintf_d] at h
      obtain ⟨d, rest, hd⟩ := natDigits_head n n []
      rw [hd] at h
      simp only [List.cons.injEq] at h
      exact absurd h.1.symm (digitChar_ne_minus d)
    | negSucc n =>
      simp only [Sprintf_d, List.cons.injEq, true_and] at h
      have := natDigits_injective _ _ h
      simp at this
      rw [this]

theorem auditKey_injective (recordID : String) (a b : Int)
    (h : auditKey recordID a = auditKey recordID b) : a = b := by
  apply Sprintf_d_injective
  unfold auditKey at h
  have h' := congrArg String.data h
  simp only [String.data_append, List.append_assoc] at h'
  apply String.ext
  exact List.append_cancel_left (List.append_cancel_left (List.append_cancel_left h'))

theorem auditKey_ne_self (recordID : String) (a : Int) : auditKey recordID a ≠ recordID := by
  intro h
  have h' := congrArg String.length h
  have h1 : "AUDIT_".length = 6 := rfl
  have h2 : "_".length = 1 := rfl
  simp only [auditKey, String.length_append, h1, h2] at h'
  omega

theorem hospitalKey_length : hospitalKey.length = 30 := by decide

theorem NewCipher_hospitalKey : NewCipher hospitalKey = .error (.keySize 30) := by rfl

theorem encryptAES_hospitalKey (L : Lib) (env : Env) (p : String) :
    encryptAES L env p hospitalKey = .error (.keySize 30) := by
  simp [encryptAES, NewCipher_hospitalKey]

theorem decryptAES_hospitalKey (L : Lib) (c : String) :
    ∃ e, decryptAES L c hospitalKey = .error e := by
  unfold decryptAES
  cases h : L.b64decode c with
  | none => exact ⟨_, rfl⟩
  | some data => simp [NewCipher_hospitalKey]

theorem submit_error {α : Type} (op : World → Tx → Except GoError α × Tx) (w : World)
    (e : GoError) (h : (submit op w).1 = .error e) : (submit op w).2 = w := by
  unfold submit at h ⊢
  split
  · rename_i a tx heq
    rw [heq] at h
    simp at h
  · rfl

theorem submit_of_error {α : Type} (op : World → Tx → Except GoError α × Tx) (w : World)
    (e : GoError) (h : (op w Tx.start).1 = .error e) : submit op w = (.error e, w) := by
  unfold submit
  split
  · rename_i a tx heq
    rw [heq] at h
    simp at h
  · rename_i e' tx heq
    rw [heq] at h
    simp at h
    rw [h]

theorem submit_of_ok {α : Type} (op : World → Tx → Except GoError α × Tx) (w : World)
    (a : α) (h : (op w Tx.start).1 = .ok a) :
    submit op w = (.ok a, w.commit (op w Tx.start).2.writes) := by
  unfold submit
  split
  · rename_i a' tx heq
    rw [heq] at h
    simp at h
    rw [heq, h]
  · rename_i e' tx heq
    rw [heq] at h
    simp at h

theorem AddRecordWith_existing (key : List Nat) (L : Lib) (env : Env)
    (recordID patientID doctorID description hospital source : String) (w : World) (tx : Tx)
    (v : Value) (hv : w.get recordID = some v) (hg : env.getFault recordID = none) :
    AddRecordWith key L env recordID patientID doctorID description hospital source w tx =
      (.error (.errorf ("record " ++ recordID ++ " already exists")), tx) := by
  simp [AddRecordWith, GetState, hg, hv]

theorem AddRecordWith_getFault (key : List Nat) (L : Lib) (env : Env)
    (recordID patientID doctorID description hospital source : String) (w : World) (tx : Tx)
    (e : String) (hg : env.getFault recordID = some e) :
    AddRecordWith key L env recordID patientID doctorID description hospital source w tx =
      (.error (.wrap "failed to read from world state: " (.stub e)), tx) := by
  simp [AddRecordWith, GetState, hg]

theorem QueryRecord_getFault (L : Lib) (env : Env) (recordID : String) (w : World) (tx : Tx)
    (e : String) (hg : env.getFault recordID = some e) :
    QueryRecord L env recordID w tx =
      (.error (.wrap "failed to read from world state: " (.stub e)), tx) := by
  simp [QueryRecord, GetState, hg]

theorem QueryRecord_absent (L : Lib) (env : Env) (recordID : String) (w : World) (tx : Tx)
    (hv : w.get recordID = none) (hg : env.getFault recordID = none) :
    QueryRecord L env recordID w tx =
      (.error (.errorf ("record " ++ recordID ++ " does not exist")), tx) := by
  simp [QueryRecord, GetState, hg, hv]

theorem QueryRecord_stored (L : Lib) (env : Env) (recordID : String) (w : World) (tx : Tx)
    (v : Value) (record : HealthRecord) (hv : w.get recordID = some v)
    (hg : env.getFault recordID = none) (hu : unmarshalRecord L v = .ok record) :
    QueryRecord L env recordID w tx =
      (.ok record,
        (PutState env (auditKey recordID (env.clock (tx.ticks + 1)).Unix)
          (marshalAudit ⟨env.txID, recordID, "QUERY_RECORD", "SYSTEM", env.clock tx.ticks,
            "Record " ++ recordID ++ " queried"⟩)
          ⟨tx.writes, tx.ticks + 2⟩).2) := by
  simp [QueryRecord, GetState, hg, hv, hu, Now]

theorem VerifyIntegrity_of_error (L : Lib) (env : Env) (recordID : String) (w : World) (tx tx' : Tx)
    (e : GoError) (h : QueryRecord L env recordID w tx = (.error e, tx')) :
    VerifyIntegrity L env recordID w tx = (.error e, tx') := by
  simp [VerifyIntegrity, h]

theorem DecryptRecordWith_of_error (key : List Nat) (L : Lib) (env : Env) (recordID : String)
    (w : World) (tx tx' : Tx) (e : GoError)
    (h : QueryRecord L env recordID w tx = (.error e, tx')) :
    DecryptRecordWith key L env recordID w tx = (.error e, tx') := by
  simp [DecryptRecordWith, h]

theorem AddRecord_absent (L : Lib) (env : Env)
    (recordID patientID doctorID description hospital source : String) (w : World) (tx : Tx)
    (hv : w.get recordID = none) (hg : env.getFault recordID = none) :
    AddRecord L env recordID patientID doctorID description hospital source w tx =
      (.error (.wrap "failed to encrypt data: " (.keySize 30)), tx) := by
  simp [AddRecord, AddRecordWith, GetState, hg, hv, encryptAES_hospitalKey]

theorem AddRecord_fails (L : Lib) (env : Env)
    (recordID patientID doctorID description hospital source : String) (w : World) (tx : Tx) :
    ∃ e, AddRecord L env recordID patientID doctorID description hospital source w tx =
      (.error e, tx) := by
  cases hg : env.getFault recordID with
  | some e => exact ⟨_, AddRecordWith_getFault _ _ _ _ _ _ _ _ _ _ _ e hg⟩
  | none =>
    cases hv : w.get recordID with
    | none => exact ⟨_, AddRecord_absent _ _ _ _ _ _ _ _ _ _ hv hg⟩
    | some v => exact ⟨_, AddRecordWith_existing _ _ _ _ _ _ _ _ _ _ _ v hv hg⟩

/-- C1: `AddRecord` returns an error for every ledger state and every input, because the key it
encrypts with has 30 bytes; on the empty ledger
`AddRecord("REC001","P1","D1","flu","CityHosp","EHR")` fails with the key-size error of
`aes.NewCipher` and stores nothing. -/
theorem C1_AddRecord_fails_on_hospitalKey (L : Lib) (env : Env)
    (recordID patientID doctorID description hospital source txID : String) (w : World) (tx : Tx)
    (clock : Nat → Time) :
    (AddRecord L env recordID patientID doctorID description hospital source w tx).1 ≠ .ok () ∧
    submit (AddRecord L (Env.calm txID clock) "REC001" "P1" "D1" "flu" "CityHosp" "EHR") [] =
      (.error (.wrap "failed to encrypt data: " (.keySize 30)), []) := by
  refine ⟨?_, rfl⟩
  obtain ⟨e, he⟩ := AddRecord_fails L env recordID patientID doctorID description hospital source w tx
  rw [he]
  simp

/-- C2: when a value is stored at `record_id`, `AddRecord` (with any key) returns an error
without buffering a write or reading the clock, the error is "record ... already exists" when
the read of `record_id` succeeds, and the ledger after the invocation is the ledger before it,
so the value at `record_id` is still the stored one and no audit entry has been added. -/
theorem C2_AddRecord_existing_unchanged (key : List Nat) (L : Lib) (env : Env)
    (recordID patientID doctorID description hospital source : String) (w : World) (tx : Tx)
    (v : Value) (hv : w.get recordID = some v) :
    (∃ e, AddRecordWith key L env recordID patientID doctorID description hospital source w tx =
      (.error e, tx)) ∧
    (env.getFault recordID = none →
      AddRecordWith key L env recordID patientID doctorID description hospital source w tx =
        (.error (.errorf ("record " ++ recordID ++ " already exists")), tx)) ∧
    (submit (AddRecordWith key L env recordID patientID doctorID description hospital source)
      w).2 = w ∧
    (submit (AddRecordWith key L env recordID patientID doctorID description hospital source)
      w).2.get recordID = some v ∧
    (∃ e, submit (AddRecord L env recordID patientID doctorID description hospital source) w =
      (.error e, w)) := by
  have h1 : ∀ tx, ∃ e, AddRecordWith key L env recordID patientID doctorID description hospital
      source w tx = (.error e, tx) := by
    intro tx
    cases hg : env.getFault recordID with
    | some e => exact ⟨_, AddRecordWith_getFault _ _ _ _ _ _ _ _ _ _ _ e hg⟩
    | none => exact ⟨_, AddRecordWith_existing _ _ _ _ _ _ _ _ _ _ _ v hv hg⟩
  have h2 : (submit (AddRecordWith key L env recordID patientID doctorID description hospital
      source) w).2 = w := by
    obtain ⟨e, he⟩ := h1 Tx.start
    rw [submit_of_error _ w e (by rw [he])]
  refine ⟨h1 tx, ?_, h2, ?_, ?_⟩
  · intro hg
    exact AddRecordWith_existing _ _ _ _ _ _ _ _ _ _ _ v hv hg
  · rw [h2]
    exact hv
  · obtain ⟨e, he⟩ := AddRecord_fails L env recordID patientID doctorID description hospital
      source w Tx.start
    exact ⟨e, submit_of_error _ w e (by rw [he])⟩

/-- C2 at a ledger that holds a record at "REC001": a second `AddRecord` with other arguments
fails with the already-exists error and the stored value stays. -/
theorem C2_AddRecord_existing_unchanged_witness :
    sampleWorld.get "REC001" = some (marshalRecord sampleRecord) ∧
    AddRecordWith key32 Lib.toy (Env.calm "tx2" (clockAt 9)) "REC001" "P2" "D2" "cold"
        "OtherHosp" "LAB" sampleWorld Tx.start =
      (.error (.errorf "record REC001 already exists"), Tx.start) ∧
    (submit (AddRecordWith key32 Lib.toy (Env.calm "tx2" (clockAt 9)) "REC001" "P2" "D2" "cold"
      "OtherHosp" "LAB") sampleWorld).2.get "REC001" = some (marshalRecord sampleRecord) :=
  have h := C2_AddRecord_existing_unchanged key32 Lib.toy (Env.calm "tx2" (clockAt 9)) "REC001"
    "P2" "D2" "cold" "OtherHosp" "LAB" sampleWorld Tx.start (marshalRecord sampleRecord) rfl
  ⟨rfl, h.2.1 rfl, h.2.2.2.1⟩

/-- C3: when no value is stored at `record_id`, each of `QueryRecord`, `VerifyIntegrity` and
`DecryptRecord` (with any key) returns an error without buffering a write, the error is
"record ... does not exist" when the read of `record_id` succeeds, and the ledger after the
invocation is the ledger before it. -/
theorem C3_reads_of_absent_record (key : List Nat) (L : Lib) (env : Env) (recordID : String)
    (w : World) (tx : Tx) (hv : w.get recordID = none) :
    ((∃ e, QueryRecord L env recordID w tx = (.error e, tx)) ∧
      (∃ e, VerifyIntegrity L env recordID w tx = (.error e, tx)) ∧
      (∃ e, DecryptRecordWith key L env recordID w tx = (.error e, tx)) ∧
      (∃ e, DecryptRecord L env recordID w tx = (.error e, tx))) ∧
    (env.getFault recordID = none →
      QueryRecord L env recordID w tx =
        (.error (.errorf ("record " ++ recordID ++ " does not exist")), tx) ∧
      VerifyIntegrity L env recordID w tx =
        (.error (.errorf ("record " ++ recordID ++ " does not exist")), tx) ∧
      DecryptRecordWith key L env recordID w tx =
        (.error (.errorf ("record " ++ recordID ++ " does not exist")), tx) ∧
      DecryptRecord L env recordID w tx =
        (.error (.errorf ("record " ++ recordID ++ " does not exist")), tx)) ∧
    ((submit (QueryRecord L env recordID) w).2 = w ∧
      (submit (VerifyIntegrity L env recordID) w).2 = w ∧
      (submit (DecryptRecordWith key L env recordID) w).2 = w ∧
      (submit (DecryptRecord L env recordID) w).2 = w) := by
  have hq : ∀ tx, ∃ e, QueryRecord L env recordID w tx = (.error e, tx) := by
    intro tx
    cases hg : env.getFault recordID with
    | some e => exact ⟨_, QueryRecord_getFault _ _ _ _ _ e hg⟩
    | none => exact ⟨_, QueryRecord_absent _ _ _ _ _ hv hg⟩
  refine ⟨?_, ?_, ?_⟩
  · obtain ⟨e, he⟩ := hq tx
    exact ⟨⟨e, he⟩, ⟨e, VerifyIntegrity_of_error _ _ _ _ _ _ e he⟩,
      ⟨e, DecryptRecordWith_of_error _ _ _ _ _ _ _ e he⟩,
      ⟨e, DecryptRecordWith_of_error _ _ _ _ _ _ _ e he⟩⟩
  · intro hg
    have he := QueryRecord_absent L env recordID w tx hv hg
    exact ⟨he, VerifyIntegrity_of_error _ _ _ _ _ _ _ he,
      DecryptRecordWith_of_error _ _ _ _ _ _ _ _ he, DecryptRecordWith_of_error _ _ _ _ _ _ _ _ he⟩
  · obtain ⟨e, he⟩ := hq Tx.start
    refine ⟨?_, ?_, ?_, ?_⟩
    · rw [submit_of_error _ w e (by rw [he])]
    · rw [submit_of_error _ w e (by rw [VerifyIntegrity_of_error _ _ _ _ _ _ e he])]
    · rw [submit_of_error _ w e (by rw [DecryptRecordWith_of_error _ _ _ _ _ _ _ e he])]
    · rw [submit_of_error _ w e (by
        rw [DecryptRecord, DecryptRecordWith_of_error _ _ _ _ _ _ _ e he])]

/-- C3 at the empty ledger, where "REC404" is not stored. -/
theorem C3_reads_of_absent_record_witness :
    World.get [] "REC404" = none ∧
    QueryRecord Lib.toy (Env.calm "tx1" (clockAt 5)) "REC404" [] Tx.start =
      (.error (.errorf "record REC404 does not exist"), Tx.start) ∧
    (submit (VerifyIntegrity Lib.toy (Env.calm "tx1" (clockAt 5)) "REC404") []).2 = [] :=
  have h := C3_reads_of_absent_record key32 Lib.toy (Env.calm "tx1" (clockAt 5)) "REC404" []
    Tx.start rfl
  ⟨rfl, (h.2.1 rfl).1, h.2.2.2.1⟩

theorem DecryptRecord_fails (L : Lib) (env : Env) (recordID : String) (w : World) (tx : Tx) :
    ∃ e tx', DecryptRecord L env recordID w tx = (.error e, tx') := by
  unfold DecryptRecord DecryptRecordWith
  rcases hq : QueryRecord L env recordID w tx with ⟨r, tx1⟩
  cases r with
  | error e => exact ⟨e, tx1, rfl⟩
  | ok record =>
    obtain ⟨e, he⟩ := decryptAES_hospitalKey L record.EncryptedData
    exact ⟨.wrap "failed to decrypt data: " e, tx1, by simp [he]⟩

/-- C4: `DecryptRecord` never returns a plaintext, whatever the ledger holds, because
`decryptAES` rejects the 30-byte key; and on the empty ledger, after
`AddRecord("REC001","P1","D1","flu","CityHosp","EHR")` has failed and stored nothing,
`DecryptRecord("REC001")` fails with "record REC001 does not exist". -/
theorem C4_DecryptRecord_after_AddRecord_fails (L : Lib) (env : Env) (recordID : String)
    (w : World) (tx : Tx) (txID1 txID2 : String) (clock1 clock2 : Nat → Time) :
    (∀ p, (DecryptRecord L env recordID w tx).1 ≠ .ok p) ∧
    submit (DecryptRecord L (Env.calm txID2 clock2) "REC001")
        (submit (AddRecord L (Env.calm txID1 clock1) "REC001" "P1" "D1" "flu" "CityHosp" "EHR")
          []).2 =
      (.error (.errorf "record REC001 does not exist"), []) := by
  refine ⟨?_, rfl⟩
  intro p
  obtain ⟨e, tx', he⟩ := DecryptRecord_fails L env recordID w tx
  rw [he]
  simp

/-- C5: on the empty ledger, `AddRecord("REC001","P1","D1","flu","CityHosp","EHR")` leaves the
ledger empty, and the following `QueryRecord("REC001")` returns no Record but the error
"record REC001 does not exist". -/
theorem C5_QueryRecord_after_AddRecord_fails (L : Lib) (txID1 txID2 : String)
    (clock1 clock2 : Nat → Time) :
    (submit (AddRecord L (Env.calm txID1 clock1) "REC001" "P1" "D1" "flu" "CityHosp" "EHR")
      []).2 = [] ∧
    submit (QueryRecord L (Env.calm txID2 clock2) "REC001")
        (submit (AddRecord L (Env.calm txID1 clock1) "REC001" "P1" "D1" "flu" "CityHosp" "EHR")
          []).2 =
      (.error (.errorf "record REC001 does not exist"), []) :=
  ⟨rfl, rfl⟩

theorem VerifyIntegrity_stored (L : Lib) (env : Env) (recordID : String) (w : World) (tx : Tx)
    (v : Value) (record : HealthRecord) (hv : w.get recordID = some v)
    (hg : env.getFault recordID = none) (hu : unmarshalRecord L v = .ok record) :
    VerifyIntegrity L env recordID w tx =
      (.ok (decide (Sprintf_x (L.sha256 record.RawData) = record.Hash)),
        (PutState env (auditKey recordID (env.clock (tx.ticks + 3)).Unix)
          (marshalAudit ⟨env.txID, recordID, "VERIFY_INTEGRITY", "SYSTEM",
            env.clock (tx.ticks + 2),
            "Integrity check: " ++
              Sprintf_t (decide (Sprintf_x (L.sha256 record.RawData) = record.Hash))⟩)
          ⟨(PutState env (auditKey recordID (env.clock (tx.ticks + 1)).Unix)
            (marshalAudit ⟨env.txID, recordID, "QUERY_RECORD", "SYSTEM", env.clock tx.ticks,
              "Record " ++ recordID ++ " queried"⟩)
            ⟨tx.writes, tx.ticks + 2⟩).2.writes, tx.ticks + 4⟩).2) := by
  rw [VerifyIntegrity, QueryRecord_stored L env recordID w tx v record hv hg hu]
  cases hp : env.putFault (auditKey recordID (env.clock (tx.ticks + 1)).Unix) <;>
    simp [PutState, hp, Now]

/-- C6: when a deserializable Record is stored at `record_id` and its read succeeds,
`VerifyIntegrity` returns without error the boolean "lowercase hex of the SHA-256 of the stored
plaintext equals the stored hash": `true` exactly when they match and `false` exactly when they
do not, both from the operation itself and from the committed invocation. -/
theorem C6_VerifyIntegrity_compares_hash (L : Lib) (env : Env) (recordID : String) (w : World)
    (tx : Tx) (v : Value) (record : HealthRecord) (hv : w.get recordID = some v)
    (hg : env.getFault recordID = none) (hu : unmarshalRecord L v = .ok record) :
    (VerifyIntegrity L env recordID w tx).1 =
      .ok (decide (Sprintf_x (L.sha256 record.RawData) = record.Hash)) ∧
    (submit (VerifyIntegrity L env recordID) w).1 =
      .ok (decide (Sprintf_x (L.sha256 record.RawData) = record.Hash)) ∧
    ((VerifyIntegrity L env recordID w tx).1 = .ok true ↔
      Sprintf_x (L.sha256 record.RawData) = record.Hash) ∧
    ((VerifyIntegrity L env recordID w tx).1 = .ok false ↔
      Sprintf_x (L.sha256 record.RawData) ≠ record.Hash) := by
  have h1 := VerifyIntegrity_stored L env recordID w tx v record hv hg hu
  have h2 := VerifyIntegrity_stored L env recordID w Tx.start v record hv hg hu
  refine ⟨by rw [h1], ?_, ?_, ?_⟩
  · rw [submit_of_ok _ w _ (by rw [h2])]
  · rw [h1]
    simp
  · rw [h1]
    simp

/-- C6 at a ledger holding a record whose hash matches its plaintext, and at one whose stored
hash has been altered. -/
theorem C6_VerifyIntegrity_compares_hash_witness :
    (sampleWorld.get "REC001" = some (marshalRecord sampleRecord) ∧
      (VerifyIntegrity Lib.toy (Env.calm "tx3" (clockAt 7)) "REC001" sampleWorld Tx.start).1 =
        .ok true) ∧
    (VerifyIntegrity Lib.toy (Env.calm "tx3" (clockAt 7)) "REC001"
      [("REC001", marshalRecord { sampleRecord with Hash := "00" })] Tx.start).1 = .ok false :=
  ⟨⟨rfl, (C6_VerifyIntegrity_compares_hash Lib.toy (Env.calm "tx3" (clockAt 7)) "REC001"
      sampleWorld Tx.start (marshalRecord sampleRecord) sampleRecord rfl rfl rfl).1⟩,
    (C6_VerifyIntegrity_compares_hash Lib.toy (Env.calm "tx3" (clockAt 7)) "REC001"
      [("REC001", marshalRecord { sampleRecord with Hash := "00" })] Tx.start
      (marshalRecord { sampleRecord with Hash := "00" }) { sampleRecord with Hash := "00" }
      rfl rfl rfl).1⟩

theorem DecryptRecordWith_stored (key : List Nat) (L : Lib) (env : Env) (recordID : String)
    (w : World) (tx : Tx) (v : Value) (record : HealthRecord) (p : String)
    (hv : w.get recordID = some v) (hg : env.getFault recordID = none)
    (hu : unmarshalRecord L v = .ok record)
    (hd : decryptAES L record.EncryptedData key = .ok p) :
    DecryptRecordWith key L env recordID w tx =
      (.ok p,
        (PutState env (auditKey recordID (env.clock (tx.ticks + 3)).Unix)
          (marshalAudit ⟨env.txID, recordID, "DECRYPT_RECORD", "AUTHORIZED_USER",
            env.clock (tx.ticks + 2), "Record decrypted for authorized access"⟩)
          ⟨(PutState env (auditKey recordID (env.clock (tx.ticks + 1)).Unix)
            (marshalAudit ⟨env.txID, recordID, "QUERY_RECORD", "SYSTEM", env.clock tx.ticks,
              "Record " ++ recordID ++ " queried"⟩)
            ⟨tx.writes, tx.ticks + 2⟩).2.writes, tx.ticks + 4⟩).2) := by
  rw [DecryptRecordWith, QueryRecord_stored L env recordID w tx v record hv hg hu]
  cases hp : env.putFault (auditKey recordID (env.clock (tx.ticks + 1)).Unix) <;>
    simp [PutState, hp, Now, hd]

theorem World.commit_two (w : World) (k1 k2 : String) (v1 v2 : Value) :
    w.commit [(k1, v1), (k2, v2)] = (w.put k1 v1).put k2 v2 := rfl

theorem World.get_commit_two_snd (w : World) (k1 k2 : String) (v1 v2 : Value) :
    (w.commit [(k1, v1), (k2, v2)]).get k2 = some v2 := by
  rw [World.commit_two, World.get_put_self]

theorem World.get_commit_two_fst (w : World) (k1 k2 : String) (v1 v2 : Value) (hne : k1 ≠ k2) :
    (w.commit [(k1, v1), (k2, v2)]).get k1 = some v1 := by
  rw [World.commit_two, World.get_put_of_ne _ _ _ _ hne, World.get_put_self]

/-- C7 as stated fails: with every clock reading in second 5, a successful
`VerifyIntegrity("REC001")` leaves exactly one new entry in the ledger, the VERIFY_INTEGRITY one
at "AUDIT_REC001_5"; no value in the ledger is a QUERY_RECORD audit entry. -/
theorem C7_same_second_keeps_one_entry :
    submit (VerifyIntegrity Lib.toy (Env.calm "tx3" (clockAt 5)) "REC001") sampleWorld =
      (.ok true, sampleWorld ++ [("AUDIT_REC001_5",
        marshalAudit ⟨"tx3", "REC001", "VERIFY_INTEGRITY", "SYSTEM", ⟨5, 0⟩,
          "Integrity check: true"⟩)]) ∧
    ¬ ∃ k a, (submit (VerifyIntegrity Lib.toy (Env.calm "tx3" (clockAt 5)) "REC001")
        sampleWorld).2.get k = some (marshalAudit a) ∧ a.Action = "QUERY_RECORD" := by
  have h : submit (VerifyIntegrity Lib.toy (Env.calm "tx3" (clockAt 5)) "REC001") sampleWorld =
      (.ok true, sampleWorld ++ [("AUDIT_REC001_5",
        marshalAudit ⟨"tx3", "REC001", "VERIFY_INTEGRITY", "SYSTEM", ⟨5, 0⟩,
          "Integrity check: true"⟩)]) := rfl
  refine ⟨h, ?_⟩
  rw [h]
  rintro ⟨k, a, hk, ha⟩
  simp only [sampleWorld, List.cons_append, List.nil_append, World.get] at hk
  split at hk
  · simp [marshalRecord, marshalAudit] at hk
  · split at hk
    · simp only [marshalAudit, Option.some.injEq, Value.object.injEq, List.cons.injEq,
        Prod.mk.injEq, JVal.str.injEq, true_and] at hk
      rw [← hk.2.2.1] at ha
      simp at ha
    · simp at hk

/-- C7, amended: when a deserializable Record is stored at `record_id` and the read and the two
audit writes succeed, `VerifyIntegrity` succeeds, and `DecryptRecord` succeeds for every key its
decryption succeeds with; afterwards the ledger holds the outer entry (VERIFY_INTEGRITY or
DECRYPT_RECORD) at the outer audit key, and, when the inner and the outer audit key are for
different unix seconds, the QUERY_RECORD entry of the inner `QueryRecord` at the inner audit
key. -/
theorem C7_two_audit_entries_in_different_seconds (key : List Nat) (L : Lib) (env : Env)
    (recordID : String) (w : World) (v : Value) (record : HealthRecord)
    (hv : w.get recordID = some v) (hg : env.getFault recordID = none)
    (hu : unmarshalRecord L v = .ok record)
    (hp1 : env.putFault (auditKey recordID (env.clock 1).Unix) = none)
    (hp2 : env.putFault (auditKey recordID (env.clock 3).Unix) = none) :
    ((submit (VerifyIntegrity L env recordID) w).1 =
        .ok (decide (Sprintf_x (L.sha256 record.RawData) = record.Hash)) ∧
      (submit (VerifyIntegrity L env recordID) w).2.get
          (auditKey recordID (env.clock 3).Unix) =
        some (marshalAudit ⟨env.txID, recordID, "VERIFY_INTEGRITY", "SYSTEM", env.clock 2,
          "Integrity check: " ++
            Sprintf_t (decide (Sprintf_x (L.sha256 record.RawData) = record.Hash))⟩) ∧
      ((env.clock 1).Unix ≠ (env.clock 3).Unix →
        (submit (VerifyIntegrity L env recordID) w).2.get
            (auditKey recordID (env.clock 1).Unix) =
          some (marshalAudit ⟨env.txID, recordID, "QUERY_RECORD", "SYSTEM", env.clock 0,
            "Record " ++ recordID ++ " queried"⟩))) ∧
    (∀ p, decryptAES L record.EncryptedData key = .ok p →
      (submit (DecryptRecordWith key L env recordID) w).1 = .ok p ∧
      (submit (DecryptRecordWith key L env recordID) w).2.get
          (auditKey recordID (env.clock 3).Unix) =
        some (marshalAudit ⟨env.txID, recordID, "DECRYPT_RECORD", "AUTHORIZED_USER",
          env.clock 2, "Record decrypted for authorized access"⟩) ∧
      ((env.clock 1).Unix ≠ (env.clock 3).Unix →
        (submit (DecryptRecordWith key L env recordID) w).2.get
            (auditKey recordID (env.clock 1).Unix) =
          some (marshalAudit ⟨env.txID, recordID, "QUERY_RECORD", "SYSTEM", env.clock 0,
            "Record " ++ recordID ++ " queried"⟩))) := by
  have hne : (env.clock 1).Unix ≠ (env.clock 3).Unix →
      auditKey recordID (env.clock 1).Unix ≠ auditKey recordID (env.clock 3).Unix :=
    fun h h' => h (auditKey_injective recordID _ _ h')
  constructor
  · have h := VerifyIntegrity_stored L env recordID w Tx.start v record hv hg hu
    simp only [Tx.start, Nat.zero_add, PutState, hp1, hp2, List.nil_append,
      List.singleton_append] at h
    change VerifyIntegrity L env recordID w Tx.start = _ at h
    rw [submit_of_ok _ w _ (by rw [h]), h]
    exact ⟨rfl, World.get_commit_two_snd _ _ _ _ _,
      fun hs => World.get_commit_two_fst _ _ _ _ _ (hne hs)⟩
  · intro p hd
    have h := DecryptRecordWith_stored key L env recordID w Tx.start v record p hv hg hu hd
    simp only [Tx.start, Nat.zero_add, PutState, hp1, hp2, List.nil_append,
      List.singleton_append] at h
    change DecryptRecordWith key L env recordID w Tx.start = _ at h
    rw [submit_of_ok _ w _ (by rw [h]), h]
    exact ⟨rfl, World.get_commit_two_snd _ _ _ _ _,
      fun hs => World.get_commit_two_fst _ _ _ _ _ (hne hs)⟩

/-- C7 amended, at a ledger holding `sampleRecord`, with a 32-byte key and a clock that
advances one second per reading. -/
theorem C7_two_audit_entries_in_different_seconds_witness :
    (sampleWorld.get "REC001" = some (marshalRecord sampleRecord) ∧
      decryptAES Lib.toy sampleRecord.EncryptedData key32 = .ok sampleRaw ∧
      (clockTicking 1).Unix ≠ (clockTicking 3).Unix) ∧
    (submit (VerifyIntegrity Lib.toy (Env.calm "tx3" clockTicking) "REC001") sampleWorld).2.get
        "AUDIT_REC001_1" =
      some (marshalAudit ⟨"tx3", "REC001", "QUERY_RECORD", "SYSTEM", ⟨0, 0⟩,
        "Record REC001 queried"⟩) ∧
    (submit (DecryptRecordWith key32 Lib.toy (Env.calm "tx3" clockTicking) "REC001")
        sampleWorld).2.get "AUDIT_REC001_3" =
      some (marshalAudit ⟨"tx3", "REC001", "DECRYPT_RECORD", "AUTHORIZED_USER", ⟨2, 0⟩,
        "Record decrypted for authorized access"⟩) :=
  have h := C7_two_audit_entries_in_different_seconds key32 Lib.toy (Env.calm "tx3" clockTicking)
    "REC001" sampleWorld (marshalRecord sampleRecord) sampleRecord rfl rfl rfl rfl rfl
  ⟨⟨rfl, rfl, by decide⟩, h.1.2.2 (by decide), (h.2 sampleRaw rfl).2.1⟩

theorem prefix_le_append (l x : List Char) : l ≤ l ++ x := by
  cases x with
  | nil => simp
  | cons c x' =>
    apply le_of_lt
    have h := List.Lex.append_left (· < ·) (List.Lex.nil (r := (· < ·)) (a := c) (l := x')) l
    simp only [List.append_nil] at h
    exact h

theorem underscore_lt_z (l x y : List Char) : l ++ ('_' :: x) < l ++ ('z' :: y) :=
  List.Lex.append_left _ (List.Lex.rel (by decide)) l

theorem auditKey_inRange (recordID : String) (unix : Int) :
    inRange ("AUDIT_" ++ recordID) ("AUDIT_" ++ recordID ++ "zzz") (auditKey recordID unix) =
      true := by
  have h1 : (auditKey recordID unix).toList =
      ("AUDIT_" ++ recordID).toList ++ ('_' :: (Sprintf_d unix).toList) := by
    simp [auditKey]
  have h2 : ("AUDIT_" ++ recordID ++ "zzz").toList =
      ("AUDIT_" ++ recordID).toList ++ ('z' :: ['z', 'z']) := by
    simp
  simp only [inRange, Bool.and_eq_true, decide_eq_true_eq]
  rw [h1, h2]
  exact ⟨prefix_le_append _ _, underscore_lt_z _ _ _⟩

theorem World.mem_put_self (w : World) (k : String) (v : Value) : (k, v) ∈ w.put k v := by
  induction w with
  | nil => simp [World.put]
  | cons hd tl ih =>
    obtain ⟨k', v'⟩ := hd
    by_cases h : k' = k
    · simp [World.put, h]
    · simp [World.put, h, ih]

theorem World.mem_put_of_ne (w : World) (k : String) (v : Value) (kv : String × Value)
    (hm : kv ∈ w) (hne : kv.1 ≠ k) : kv ∈ w.put k v := by
  induction w with
  | nil => simp at hm
  | cons hd tl ih =>
    obtain ⟨k', v'⟩ := hd
    by_cases h : k' = k
    · subst h
      simp only [World.put, if_true, List.mem_cons] at hm ⊢
      rcases hm with hm | hm
      · rw [hm] at hne
        exact absurd rfl hne
      · exact Or.inr hm
    · simp only [World.put, h, if_false, List.mem_cons] at hm ⊢
      rcases hm with hm | hm
      · exact Or.inl hm
      · exact Or.inr (ih hm)

theorem World.mem_put (w : World) (k : String) (v : Value) (kv : String × Value)
    (hm : kv ∈ w.put k v) : kv = (k, v) ∨ kv ∈ w := by
  induction w with
  | nil =>
    simp only [World.put, List.mem_singleton] at hm
    exact Or.inl hm
  | cons hd tl ih =>
    obtain ⟨k', v'⟩ := hd
    by_cases h : k' = k
    · simp only [World.put, h, if_true, List.mem_cons] at hm
      rcases hm with hm | hm
      · exact Or.inl hm
      · exact Or.inr (List.mem_cons_of_mem _ hm)
    · simp only [World.put, h, if_false, List.mem_cons] at hm
      rcases hm with hm | hm
      · exact Or.inr (by rw [hm]; exact List.mem_cons_self _ _)
      · rcases ih hm with h' | h'
        · exact Or.inl h'
        · exact Or.inr (List.mem_cons_of_mem _ h')

theorem sublist_pair_of_sorted (l : List (String × Value)) (a b : String × Value)
    (hs : l.Sorted keyLE) (ha : a ∈ l) (hb : b ∈ l) (hlt : a.1.toList < b.1.toList) :
    [a, b].Sublist l := by
  induction l with
  | nil => simp at ha
  | cons x xs ih =>
    have hp := List.pairwise_cons.1 hs
    rcases List.mem_cons.1 ha with ha | ha
    · rcases List.mem_cons.1 hb with hb | hb
      · rw [ha, hb] at hlt
        exact absurd hlt (lt_irrefl _)
      · rw [ha]
        exact List.Sublist.cons₂ _ (List.singleton_sublist.2 hb)
    · rcases List.mem_cons.1 hb with hb | hb
      · have hle : keyLE x a := hp.1 a ha
        rw [hb] at hlt
        exact absurd hlt (not_lt.2 hle)
      · exact List.Sublist.cons _ (ih hp.2 ha hb)

theorem unmarshalAudit_marshalAudit (L : Lib) (a : AuditLog) :
    unmarshalAudit L (marshalAudit a) = .ok a := rfl

theorem unmarshalRecord_marshalRecord (L : Lib) (r : HealthRecord) :
    unmarshalRecord L (marshalRecord r) = .ok r := rfl

theorem collectAudits_ok (L : Lib) (env : Env) (l : List (String × Value)) (acc : List AuditLog)
    (hn : ∀ kv ∈ l, env.nextFault kv.1 = none)
    (hd : ∀ kv ∈ l, ∃ a, unmarshalAudit L kv.2 = .ok a) :
    collectAudits L env l acc = .ok (acc ++ l.map (decodeAudit L)) := by
  induction l generalizing acc with
  | nil => simp [collectAudits]
  | cons x xs ih =>
    obtain ⟨k, v⟩ := x
    obtain ⟨a, ha⟩ := hd (k, v) (List.mem_cons_self _ _)
    have hk := hn (k, v) (List.mem_cons_self _ _)
    simp only at ha hk
    simp only [collectAudits, hk, ha, List.map_cons, decodeAudit]
    rw [ih _ (fun kv h => hn kv (List.mem_cons_of_mem _ h))
      (fun kv h => hd kv (List.mem_cons_of_mem _ h))]
    simp

theorem AddRecordWith_absent (key : List Nat) (L : Lib) (env : Env)
    (recordID patientID doctorID description hospital source : String) (w : World) (tx : Tx)
    (encryptedData : String) (hv : w.get recordID = none) (hg : env.getFault recordID = none)
    (he : encryptAES L env ("Patient: " ++ patientID ++ ", Doctor: " ++ doctorID ++
      ", Description: " ++ description ++ ", Hospital: " ++ hospital) key = .ok encryptedData)
    (hp : env.putFault recordID = none) :
    AddRecordWith key L env recordID patientID doctorID description hospital source w tx =
      (.ok (),
        (PutState env (auditKey recordID (env.clock (tx.ticks + 4)).Unix)
          (marshalAudit ⟨env.txID, recordID, "ADD_RECORD", doctorID, env.clock (tx.ticks + 3),
            "Record added for patient " ++ patientID ++ " at " ++ hospital⟩)
          ⟨tx.writes ++ [(recordID, marshalRecord ⟨recordID, patientID, doctorID,
            "Patient: " ++ patientID ++ ", Doctor: " ++ doctorID ++
              ", Description: " ++ description ++ ", Hospital: " ++ hospital,
            Sprintf_x (L.sha256 ("Patient: " ++ patientID ++ ", Doctor: " ++ doctorID ++
              ", Description: " ++ description ++ ", Hospital: " ++ hospital)),
            encryptedData, hospital, env.clock tx.ticks, source, env.clock (tx.ticks + 1),
            env.clock (tx.ticks + 2)⟩)], tx.ticks + 5⟩).2) := by
  simp [AddRecordWith, GetState, hg, hv, he, Now, PutState, hp]

theorem decodeAudit_marshalAudit (L : Lib) (k : String) (a : AuditLog) :
    decodeAudit L (k, marshalAudit a) = a := rfl

theorem GetAuditTrail_ok (L : Lib) (env : Env) (recordID : String) (w : World)
    (hr : env.rangeFault ("AUDIT_" ++ recordID) ("AUDIT_" ++ recordID ++ "zzz") = none)
    (hn : ∀ k, env.nextFault k = none)
    (hd : ∀ kv ∈ w, inRange ("AUDIT_" ++ recordID) ("AUDIT_" ++ recordID ++ "zzz") kv.1 = true →
      ∃ a, unmarshalAudit L kv.2 = .ok a) :
    submit (GetAuditTrail L env recordID) w =
      (.ok ((w.range ("AUDIT_" ++ recordID) ("AUDIT_" ++ recordID ++ "zzz")).map
        (decodeAudit L)), w) := by
  have h : GetAuditTrail L env recordID w Tx.start =
      (.ok ((w.range ("AUDIT_" ++ recordID) ("AUDIT_" ++ recordID ++ "zzz")).map
        (decodeAudit L)), Tx.start) := by
    simp only [GetAuditTrail, GetStateByRange, hr]
    rw [collectAudits_ok L env _ [] (fun kv _ => hn kv.1)]
    · simp
    · intro kv hkv
      have hm := (List.mem_insertionSort keyLE).1 hkv
      rw [List.mem_filter] at hm
      exact hd kv hm.1 hm.2
  rw [submit_of_ok _ w _ (by rw [h]), h]
  rfl

theorem trail_after_two_puts (L : Lib) (env : Env) (recordID : String) (w : World)
    (kA kQ : String) (a q : AuditLog)
    (hr : env.rangeFault ("AUDIT_" ++ recordID) ("AUDIT_" ++ recordID ++ "zzz") = none)
    (hn : ∀ k, env.nextFault k = none)
    (hd : ∀ kv ∈ w, inRange ("AUDIT_" ++ recordID) ("AUDIT_" ++ recordID ++ "zzz") kv.1 = true →
      ∃ x, unmarshalAudit L kv.2 = .ok x)
    (hA : inRange ("AUDIT_" ++ recordID) ("AUDIT_" ++ recordID ++ "zzz") kA = true)
    (hQ : inRange ("AUDIT_" ++ recordID) ("AUDIT_" ++ recordID ++ "zzz") kQ = true)
    (hlt : kA.toList < kQ.toList) :
    ∃ trail,
      (submit (GetAuditTrail L env recordID)
        ((w.put kA (marshalAudit a)).put kQ (marshalAudit q))).1 = .ok trail ∧
      2 ≤ trail.length ∧ [a, q].Sublist trail := by
  have hkne : kA ≠ kQ := by
    intro h
    rw [h] at hlt
    exact lt_irrefl _ hlt
  rw [GetAuditTrail_ok L env recordID _ hr hn]
  · have hsub := sublist_pair_of_sorted
      (World.range ((w.put kA (marshalAudit a)).put kQ (marshalAudit q))
        ("AUDIT_" ++ recordID) ("AUDIT_" ++ recordID ++ "zzz"))
      (kA, marshalAudit a) (kQ, marshalAudit q)
      (List.sorted_insertionSort keyLE _)
      ((List.mem_insertionSort keyLE).2 (List.mem_filter.2
        ⟨World.mem_put_of_ne _ _ _ _ (World.mem_put_self _ _ _) hkne, hA⟩))
      ((List.mem_insertionSort keyLE).2 (List.mem_filter.2 ⟨World.mem_put_self _ _ _, hQ⟩))
      hlt
    have hmap := hsub.map (decodeAudit L)
    exact ⟨_, rfl, hmap.length_le, hmap⟩
  · intro kv hkv hin
    rcases World.mem_put _ _ _ _ hkv with h | h
    · exact ⟨_, by rw [h]; exact unmarshalAudit_marshalAudit L _⟩
    · rcases World.mem_put _ _ _ _ h with h | h
      · exact ⟨_, by rw [h]; exact unmarshalAudit_marshalAudit L _⟩
      · exact hd kv h hin

theorem AddRecordWith_stores (key : List Nat) (L : Lib) (env : Env)
    (recordID patientID doctorID description hospital source : String) (w : World)
    (encryptedData : String) (hv : w.get recordID = none) (hg : env.getFault recordID = none)
    (he : encryptAES L env ("Patient: " ++ patientID ++ ", Doctor: " ++ doctorID ++
      ", Description: " ++ description ++ ", Hospital: " ++ hospital) key = .ok encryptedData)
    (hp : env.putFault recordID = none) :
    (submit (AddRecordWith key L env recordID patientID doctorID description hospital source)
      w).1 = .ok () ∧
    (submit (AddRecordWith key L env recordID patientID doctorID description hospital source)
        w).2.get recordID =
      some (marshalRecord ⟨recordID, patientID, doctorID,
        "Patient: " ++ patientID ++ ", Doctor: " ++ doctorID ++
          ", Description: " ++ description ++ ", Hospital: " ++ hospital,
        Sprintf_x (L.sha256 ("Patient: " ++ patientID ++ ", Doctor: " ++ doctorID ++
          ", Description: " ++ description ++ ", Hospital: " ++ hospital)),
        encryptedData, hospital, env.clock 0, source, env.clock 1, env.clock 2⟩) := by
  have hA := AddRecordWith_absent key L env recordID patientID doctorID description hospital
    source w Tx.start encryptedData hv hg he hp
  cases hpa : env.putFault (auditKey recordID (env.clock 4).Unix) with
  | none =>
    simp only [Tx.start, Nat.zero_add, PutState, hpa, List.nil_append,
      List.singleton_append] at hA
    change AddRecordWith key L env recordID patientID doctorID description hospital source w
      Tx.start = _ at hA
    rw [submit_of_ok _ w _ (by rw [hA]), hA, World.commit_two]
    refine ⟨rfl, ?_⟩
    show World.get (World.put _ _ _) recordID = _
    rw [World.get_put_of_ne _ _ _ _ (fun h => auditKey_ne_self recordID _ h.symm),
      World.get_put_self]
  | some e =>
    simp only [Tx.start, Nat.zero_add, PutState, hpa, List.nil_append] at hA
    change AddRecordWith key L env recordID patientID doctorID description hospital source w
      Tx.start = _ at hA
    rw [submit_of_ok _ w _ (by rw [hA]), hA]
    exact ⟨rfl, World.get_put_self _ _ _⟩

theorem digitChar_toNat (d : Nat) : (digitChar d).toNat = 48 + d % 10 := by
  have h : ∀ k, k < 10 → (Char.ofNat (48 + k)).toNat = 48 + k := by decide
  exact h (d % 10) (Nat.mod_lt _ (by decide))

theorem natDigits_digits (fuel n : Nat) (acc : List Char)
    (hacc : ∀ c ∈ acc, 48 ≤ c.toNat ∧ c.toNat ≤ 57) :
    ∀ c ∈ natDigits fuel n acc, 48 ≤ c.toNat ∧ c.toNat ≤ 57 := by
  have hd : ∀ d, 48 ≤ (digitChar d).toNat ∧ (digitChar d).toNat ≤ 57 := by
    intro d
    rw [digitChar_toNat]
    have := Nat.mod_lt d (show 10 > 0 by decide)
    omega
  induction fuel generalizing n acc with
  | zero =>
    intro c hc
    simp only [natDigits, List.mem_cons] at hc
    rcases hc with hc | hc
    · rw [hc]
      exact hd n
    · exact hacc c hc
  | succ fuel ih =>
    intro c hc
    unfold natDigits at hc
    split at hc
    · simp only [List.mem_cons] at hc
      rcases hc with hc | hc
      · rw [hc]
        exact hd n
      · exact hacc c hc
    · refine ih (n / 10) (digitChar n :: acc) ?_ c hc
      intro c' hc'
      simp only [List.mem_cons] at hc'
      rcases hc' with hc' | hc'
      · rw [hc']
        exact hd n
      · exact hacc c' hc'

theorem decVal_shift (cs : List Char) (a : Nat) :
    decVal a cs = a * 10 ^ cs.length + decVal 0 cs := by
  induction cs generalizing a with
  | nil => simp [decVal]
  | cons c cs ih =>
    have h1 : decVal a (c :: cs) = decVal (a * 10 + (c.toNat - 48)) cs := rfl
    have h2 : decVal 0 (c :: cs) = decVal (0 * 10 + (c.toNat - 48)) cs := rfl
    rw [h1, h2, ih (a * 10 + (c.toNat - 48)), ih (0 * 10 + (c.toNat - 48))]
    simp only [List.length_cons, pow_succ]
    ring

theorem decVal_lt (cs : List Char) (hcs : ∀ c ∈ cs, 48 ≤ c.toNat ∧ c.toNat ≤ 57) :
    decVal 0 cs < 10 ^ cs.length := by
  induction cs with
  | nil => simp [decVal]
  | cons c cs ih =>
    have h2 : decVal 0 (c :: cs) = decVal (0 * 10 + (c.toNat - 48)) cs := rfl
    have hc := hcs c (List.mem_cons_self _ _)
    have ih' := ih (fun c' h => hcs c' (List.mem_cons_of_mem _ h))
    rw [h2, decVal_shift]
    simp only [List.length_cons, pow_succ]
    have hv : 0 * 10 + (c.toNat - 48) ≤ 9 := by omega
    nlinarith [Nat.mul_le_mul_right (10 ^ cs.length) hv]

theorem lex_lt_of_decVal_lt (l1 l2 : List Char)
    (h1 : ∀ c ∈ l1, 48 ≤ c.toNat ∧ c.toNat ≤ 57) (h2 : ∀ c ∈ l2, 48 ≤ c.toNat ∧ c.toNat ≤ 57)
    (hlen : l1.length = l2.length) (hval : decVal 0 l1 < decVal 0 l2) : l1 < l2 := by
  induction l1 generalizing l2 with
  | nil =>
    cases l2 with
    | nil => simp [decVal] at hval
    | cons c2 t2 => simp at hlen
  | cons c1 t1 ih =>
    cases l2 with
    | nil => simp at hlen
    | cons c2 t2 =>
      have hlen' : t1.length = t2.length := by simpa using hlen
      have e1 : decVal 0 (c1 :: t1) = decVal (0 * 10 + (c1.toNat - 48)) t1 := rfl
      have e2 : decVal 0 (c2 :: t2) = decVal (0 * 10 + (c2.toNat - 48)) t2 := rfl
      rw [e1, e2, decVal_shift t1, decVal_shift t2, hlen'] at hval
      have hc1 := h1 c1 (List.mem_cons_self _ _)
      have hc2 := h2 c2 (List.mem_cons_self _ _)
      have hr1 := decVal_lt t1 (fun c h => h1 c (List.mem_cons_of_mem _ h))
      have hr2 := decVal_lt t2 (fun c h => h2 c (List.mem_cons_of_mem _ h))
      rw [hlen'] at hr1
      rcases Nat.lt_trichotomy c1.toNat c2.toNat with hlt | heq | hgt
      · exact List.Lex.rel hlt
      · have hc : c1 = c2 := by
          rw [← Char.ofNat_toNat c1, ← Char.ofNat_toNat c2, heq]
        subst hc
        have hv : decVal 0 t1 < decVal 0 t2 := by omega
        exact List.Lex.cons (ih t2 (fun c h => h1 c (List.mem_cons_of_mem _ h))
          (fun c h => h2 c (List.mem_cons_of_mem _ h)) hlen' hv)
      · exfalso
        have hv : 0 * 10 + (c2.toNat - 48) + 1 ≤ 0 * 10 + (c1.toNat - 48) := by omega
        nlinarith [Nat.mul_le_mul_right (10 ^ t2.length) hv]

theorem auditKey_lt_of_lt (recordID : String) (m n : Nat) (hmn : m < n)
    (hlen : (Sprintf_d m).length = (Sprintf_d n).length) :
    (auditKey recordID m).toList < (auditKey recordID n).toList := by
  have hm : (auditKey recordID m).toList =
      ("AUDIT_" ++ recordID).toList ++ ('_' :: natDigits m m []) := by
    simp [auditKey, Sprintf_d]
  have hn : (auditKey recordID n).toList =
      ("AUDIT_" ++ recordID).toList ++ ('_' :: natDigits n n []) := by
    simp [auditKey, Sprintf_d]
  rw [hm, hn]
  apply List.Lex.append_left
  apply List.Lex.cons
  apply lex_lt_of_decVal_lt _ _ (natDigits_digits m m [] (by simp))
    (natDigits_digits n n [] (by simp))
  · simpa [Sprintf_d, String.length] using hlen
  · rw [decVal_natDigits _ _ _ (le_refl _), decVal_natDigits _ _ _ (le_refl _)]
    simpa [decVal] using hmn

/-- The trail read after an add and a query depends on their audit seconds. On the empty ledger,
`AddRecord("REC001", ...)` fails, so the trail read after it and a `QueryRecord("REC001")` is
empty. With a 32-byte key in place of `hospitalKey`: when both invocations run in second 5 the
trail holds the QUERY_RECORD entry alone, which has replaced the ADD_RECORD entry at
"AUDIT_REC001_5"; and with the add in second 9 and the query in second 10 the trail lists the
QUERY_RECORD entry before the ADD_RECORD entry, since "AUDIT_REC001_10" sorts before
"AUDIT_REC001_9". -/
theorem trail_depends_on_audit_seconds :
    (submit (GetAuditTrail Lib.toy (Env.calm "tx3" (clockAt 7)) "REC001")
      (submit (QueryRecord Lib.toy (Env.calm "tx2" (clockAt 6)) "REC001")
        (submit (AddRecord Lib.toy (Env.calm "tx1" (clockAt 5)) "REC001" "P1" "D1" "flu"
          "CityHosp" "EHR") []).2).2).1 = .ok [] ∧
    (submit (GetAuditTrail Lib.toy (Env.calm "tx3" (clockAt 7)) "REC001")
      (submit (QueryRecord Lib.toy (Env.calm "tx2" (clockAt 5)) "REC001")
        (submit (AddRecordWith key32 Lib.toy (Env.calm "tx1" (clockAt 5)) "REC001" "P1" "D1"
          "flu" "CityHosp" "EHR") []).2).2).1 =
      .ok [⟨"tx2", "REC001", "QUERY_RECORD", "SYSTEM", ⟨5, 0⟩, "Record REC001 queried"⟩] ∧
    (submit (GetAuditTrail Lib.toy (Env.calm "tx3" (clockAt 11)) "REC001")
      (submit (QueryRecord Lib.toy (Env.calm "tx2" (clockAt 10)) "REC001")
        (submit (AddRecordWith key32 Lib.toy (Env.calm "tx1" (clockAt 9)) "REC001" "P1" "D1"
          "flu" "CityHosp" "EHR") []).2).2).1 =
      .ok [⟨"tx2", "REC001", "QUERY_RECORD", "SYSTEM", ⟨10, 0⟩, "Record REC001 queried"⟩,
        ⟨"tx1", "REC001", "ADD_RECORD", "D1", ⟨9, 0⟩,
          "Record added for patient P1 at CityHosp"⟩] := by
  exact ⟨rfl, rfl, rfl⟩

/-- For a record id not yet stored, when `AddRecordWith` runs with a key its encryption succeeds
with, `QueryRecord` runs after it, the reads and writes of both and the scan succeed, every
value in the scanned range decodes, and the audit key of the add sorts before the audit key of
the query, then both invocations succeed and `GetAuditTrail` returns at least two entries, among
them the ADD_RECORD entry before the QUERY_RECORD entry. The audit key of an earlier second
sorts before that of a later second when both are non-negative and have equally many decimal
digits. -/
theorem AddRecordWith_trail_lists_add_before_query (key : List Nat) (L : Lib) (env1 env2 env3 : Env)
    (recordID patientID doctorID description hospital source : String) (w : World)
    (encryptedData : String) (hv : w.get recordID = none)
    (hg1 : env1.getFault recordID = none)
    (he : encryptAES L env1 ("Patient: " ++ patientID ++ ", Doctor: " ++ doctorID ++
      ", Description: " ++ description ++ ", Hospital: " ++ hospital) key = .ok encryptedData)
    (hp1 : env1.putFault recordID = none)
    (hpa : env1.putFault (auditKey recordID (env1.clock 4).Unix) = none)
    (hg2 : env2.getFault recordID = none)
    (hpq : env2.putFault (auditKey recordID (env2.clock 1).Unix) = none)
    (hr3 : env3.rangeFault ("AUDIT_" ++ recordID) ("AUDIT_" ++ recordID ++ "zzz") = none)
    (hn3 : ∀ k, env3.nextFault k = none)
    (hdec : ∀ kv ∈ w,
      inRange ("AUDIT_" ++ recordID) ("AUDIT_" ++ recordID ++ "zzz") kv.1 = true →
      ∃ a, unmarshalAudit L kv.2 = .ok a)
    (hlt : (auditKey recordID (env1.clock 4).Unix).toList <
      (auditKey recordID (env2.clock 1).Unix).toList) :
    (∀ m n : Nat, m < n → (Sprintf_d m).length = (Sprintf_d n).length →
      (auditKey recordID m).toList < (auditKey recordID n).toList) ∧
    (submit (AddRecordWith key L env1 recordID patientID doctorID description hospital source)
      w).1 = .ok () ∧
    (∃ record, (submit (QueryRecord L env2 recordID)
      (submit (AddRecordWith key L env1 recordID patientID doctorID description hospital source)
        w).2).1 = .ok record) ∧
    ∃ trail,
      (submit (GetAuditTrail L env3 recordID)
        (submit (QueryRecord L env2 recordID)
          (submit (AddRecordWith key L env1 recordID patientID doctorID description hospital
            source) w).2).2).1 = .ok trail ∧
      2 ≤ trail.length ∧
      [(⟨env1.txID, recordID, "ADD_RECORD", doctorID, env1.clock 3,
          "Record added for patient " ++ patientID ++ " at " ++ hospital⟩ : AuditLog),
        ⟨env2.txID, recordID, "QUERY_RECORD", "SYSTEM", env2.clock 0,
          "Record " ++ recordID ++ " queried"⟩].Sublist trail := by
  refine ⟨?_, ?_⟩
  · exact fun m n hmn hlen => auditKey_lt_of_lt recordID m n hmn hlen
  -- the AddRecord invocation
  have hA := AddRecordWith_absent key L env1 recordID patientID doctorID description hospital
    source w Tx.start encryptedData hv hg1 he hp1
  simp only [Tx.start, Nat.zero_add, PutState, hpa, List.nil_append, List.singleton_append] at hA
  change AddRecordWith key L env1 recordID patientID doctorID description hospital source w
    Tx.start = _ at hA
  have hSA := submit_of_ok _ w _ (show (AddRecordWith key L env1 recordID patientID doctorID
    description hospital source w Tx.start).1 = .ok () by rw [hA])
  rw [hA, World.commit_two] at hSA
  rw [hSA]
  -- the QueryRecord invocation reads the record back
  have hget := World.get_put_self w recordID (marshalRecord ⟨recordID, patientID, doctorID,
    "Patient: " ++ patientID ++ ", Doctor: " ++ doctorID ++ ", Description: " ++ description ++
      ", Hospital: " ++ hospital,
    Sprintf_x (L.sha256 ("Patient: " ++ patientID ++ ", Doctor: " ++ doctorID ++
      ", Description: " ++ description ++ ", Hospital: " ++ hospital)),
    encryptedData, hospital, env1.clock 0, source, env1.clock 1, env1.clock 2⟩)
  rw [← World.get_put_of_ne _ (auditKey recordID (env1.clock 4).Unix) recordID
    (marshalAudit ⟨env1.txID, recordID, "ADD_RECORD", doctorID, env1.clock 3,
      "Record added for patient " ++ patientID ++ " at " ++ hospital⟩)
    (fun h => auditKey_ne_self recordID _ h.symm)] at hget
  have hQ := QueryRecord_stored L env2 recordID _ Tx.start _ _ hget hg2
    (unmarshalRecord_marshalRecord L _)
  simp only [Tx.start, Nat.zero_add, PutState, hpq, List.nil_append] at hQ
  change QueryRecord L env2 recordID _ Tx.start = _ at hQ
  have hSQ := submit_of_ok _ _ _ (show (QueryRecord L env2 recordID _ Tx.start).1 = .ok _ by
    rw [hQ])
  rw [hQ] at hSQ
  rw [hSQ]
  refine ⟨rfl, ⟨_, rfl⟩, ?_⟩
  -- the scan
  apply trail_after_two_puts L env3 recordID _ _ _ _ _ hr3 hn3 _
    (auditKey_inRange recordID _) (auditKey_inRange recordID _) hlt
  intro kv hkv hin
  rcases World.mem_put _ _ _ _ hkv with h | h
  · exact ⟨_, by rw [h]; rfl⟩
  · exact hdec kv h hin

/-- On the empty ledger with a 32-byte key, an add in second 5 and a query in second 6 give a
trail with the ADD_RECORD entry before the QUERY_RECORD entry. -/
theorem trail_lists_add_before_query_example :
    (World.get [] "REC001" = none ∧
      (auditKey "REC001" (clockAt 5 4).Unix).toList <
        (auditKey "REC001" (clockAt 6 1).Unix).toList) ∧
    ∃ trail,
      (submit (GetAuditTrail Lib.toy (Env.calm "tx3" (clockAt 7)) "REC001")
        (submit (QueryRecord Lib.toy (Env.calm "tx2" (clockAt 6)) "REC001")
          (submit (AddRecordWith key32 Lib.toy (Env.calm "tx1" (clockAt 5)) "REC001" "P1" "D1"
            "flu" "CityHosp" "EHR") []).2).2).1 = .ok trail ∧
      2 ≤ trail.length ∧
      [(⟨"tx1", "REC001", "ADD_RECORD", "D1", ⟨5, 0⟩,
          "Record added for patient P1 at CityHosp"⟩ : AuditLog),
        ⟨"tx2", "REC001", "QUERY_RECORD", "SYSTEM", ⟨6, 0⟩,
          "Record REC001 queried"⟩].Sublist trail :=
  ⟨⟨rfl, by decide⟩,
    (AddRecordWith_trail_lists_add_before_query key32 Lib.toy (Env.calm "tx1" (clockAt 5))
      (Env.calm "tx2" (clockAt 6)) (Env.calm "tx3" (clockAt 7)) "REC001" "P1" "D1" "flu"
      "CityHosp" "EHR" [] sampleRecord.EncryptedData rfl rfl rfl rfl rfl rfl rfl rfl
      (fun _ => rfl) (fun _ h => absurd h (List.not_mem_nil _)) (by decide)).2.2.2⟩

/-- C8: on the empty ledger, for every record id, all arguments and every behaviour of the two
hosts (so every pair of invocation times), `AddRecord` returns an error and stores nothing,
the following `QueryRecord` returns an error and stores nothing, and `GetAuditTrail` then
returns the empty trail: it holds no ADD_RECORD and no QUERY_RECORD entry. On every ledger
`AddRecord` leaves the ledger as it was. For ("REC001","P1","D1","flu","CityHosp","EHR") the
errors are the key-size error of `aes.NewCipher` and "record REC001 does not exist". -/
theorem C8_trail_is_empty_after_AddRecord_and_QueryRecord (L : Lib) (env1 env2 : Env)
    (recordID patientID doctorID description hospital source txID : String)
    (clock : Nat → Time) (w : World) :
    (submit (AddRecord L env1 recordID patientID doctorID description hospital source) w).2 =
      w ∧
    (∃ e, submit (AddRecord L env1 recordID patientID doctorID description hospital source) [] =
      (.error e, [])) ∧
    (∃ e, submit (QueryRecord L env2 recordID)
        (submit (AddRecord L env1 recordID patientID doctorID description hospital source)
          []).2 = (.error e, [])) ∧
    submit (GetAuditTrail L (Env.calm txID clock) recordID)
        (submit (QueryRecord L env2 recordID)
          (submit (AddRecord L env1 recordID patientID doctorID description hospital source)
            []).2).2 = (.ok [], []) ∧
    submit (AddRecord L (Env.calm txID clock) "REC001" "P1" "D1" "flu" "CityHosp" "EHR") [] =
      (.error (.wrap "failed to encrypt data: " (.keySize 30)), []) ∧
    submit (QueryRecord L (Env.calm txID clock) "REC001") [] =
      (.error (.errorf "record REC001 does not exist"), []) := by
  have hadd : ∀ w', ∃ e, submit (AddRecord L env1 recordID patientID doctorID description
      hospital source) w' = (.error e, w') := by
    intro w'
    obtain ⟨e, he⟩ := AddRecord_fails L env1 recordID patientID doctorID description hospital
      source w' Tx.start
    exact ⟨e, submit_of_error _ w' e (by rw [he])⟩
  have hquery : ∃ e, submit (QueryRecord L env2 recordID) [] = (.error e, []) := by
    cases hg : env2.getFault recordID with
    | some e =>
      exact ⟨_, submit_of_error _ [] _ (by rw [QueryRecord_getFault L env2 recordID [] _ e hg])⟩
    | none =>
      exact ⟨_, submit_of_error _ [] _ (by rw [QueryRecord_absent L env2 recordID [] _ rfl hg])⟩
  obtain ⟨e1, h1⟩ := hadd []
  obtain ⟨e2, h2⟩ := hquery
  obtain ⟨e3, h3⟩ := hadd w
  refine ⟨by rw [h3], ⟨e1, h1⟩, ⟨e2, by rw [h1, h2]⟩, ?_, rfl, rfl⟩
  rw [h1, h2]
  rfl

theorem DecryptRecordWith_decrypt_error (key : List Nat) (L : Lib) (env : Env)
    (recordID : String) (w : World) (tx : Tx) (v : Value) (record : HealthRecord) (e : GoError)
    (hv : w.get recordID = some v) (hg : env.getFault recordID = none)
    (hu : unmarshalRecord L v = .ok record)
    (hd : decryptAES L record.EncryptedData key = .error e) :
    DecryptRecordWith key L env recordID w tx =
      (.error (.wrap "failed to decrypt data: " e),
        (PutState env (auditKey recordID (env.clock (tx.ticks + 1)).Unix)
          (marshalAudit ⟨env.txID, recordID, "QUERY_RECORD", "SYSTEM", env.clock tx.ticks,
            "Record " ++ recordID ++ " queried"⟩)
          ⟨tx.writes, tx.ticks + 2⟩).2) := by
  rw [DecryptRecordWith, QueryRecord_stored L env recordID w tx v record hv hg hu]
  simp [hd]

/-- C9: for each of `AddRecord`, `QueryRecord`, `VerifyIntegrity`, `DecryptRecord`,
`GetAllRecords` and `GetAuditTrail`, an invocation that returns an error leaves the ledger as
it was. This includes `DecryptRecord` (with any key) on a stored record when its decryption
fails: the operation returns the decryption error after the inner `QueryRecord` has buffered
the QUERY_RECORD entry in the write set, and that write does not reach the ledger. -/
theorem C9_failed_invocation_leaves_ledger (L : Lib) (env : Env) (w : World) (e : GoError)
    (recordID patientID doctorID description hospital source : String) :
    ((submit (AddRecord L env recordID patientID doctorID description hospital source) w).1 =
        .error e →
      (submit (AddRecord L env recordID patientID doctorID description hospital source) w).2 =
        w) ∧
    ((submit (QueryRecord L env recordID) w).1 = .error e →
      (submit (QueryRecord L env recordID) w).2 = w) ∧
    ((submit (VerifyIntegrity L env recordID) w).1 = .error e →
      (submit (VerifyIntegrity L env recordID) w).2 = w) ∧
    ((submit (DecryptRecord L env recordID) w).1 = .error e →
      (submit (DecryptRecord L env recordID) w).2 = w) ∧
    ((submit (GetAllRecords L env) w).1 = .error e → (submit (GetAllRecords L env) w).2 = w) ∧
    ((submit (GetAuditTrail L env recordID) w).1 = .error e →
      (submit (GetAuditTrail L env recordID) w).2 = w) ∧
    (∀ key v record, w.get recordID = some v → env.getFault recordID = none →
      unmarshalRecord L v = .ok record →
      env.putFault (auditKey recordID (env.clock 1).Unix) = none →
      decryptAES L record.EncryptedData key = .error e →
      DecryptRecordWith key L env recordID w Tx.start =
        (.error (.wrap "failed to decrypt data: " e),
          ⟨[(auditKey recordID (env.clock 1).Unix,
            marshalAudit ⟨env.txID, recordID, "QUERY_RECORD", "SYSTEM", env.clock 0,
              "Record " ++ recordID ++ " queried"⟩)], 2⟩) ∧
      submit (DecryptRecordWith key L env recordID) w =
        (.error (.wrap "failed to decrypt data: " e), w)) := by
  refine ⟨submit_error _ w e, submit_error _ w e, submit_error _ w e, submit_error _ w e,
    submit_error _ w e, submit_error _ w e, ?_⟩
  intro key v record hv hg hu hp hd
  have h := DecryptRecordWith_decrypt_error key L env recordID w Tx.start v record e hv hg hu hd
  simp only [Tx.start, Nat.zero_add, PutState, hp, List.nil_append] at h
  change DecryptRecordWith key L env recordID w Tx.start = _ at h
  exact ⟨h, submit_of_error _ w _ (by rw [h])⟩

/-- C9 at a ledger holding `sampleRecord`: `DecryptRecord("REC001")` fails in decryption and
the ledger is unchanged. -/
theorem C9_failed_invocation_leaves_ledger_witness :
    (submit (DecryptRecord Lib.toy (Env.calm "tx4" (clockAt 8)) "REC001") sampleWorld).1 =
      .error (.wrap "failed to decrypt data: " (.keySize 30)) ∧
    (submit (DecryptRecord Lib.toy (Env.calm "tx4" (clockAt 8)) "REC001") sampleWorld).2 =
      sampleWorld ∧
    DecryptRecord Lib.toy (Env.calm "tx4" (clockAt 8)) "REC001" sampleWorld Tx.start =
      (.error (.wrap "failed to decrypt data: " (.keySize 30)),
        ⟨[("AUDIT_REC001_8", marshalAudit ⟨"tx4", "REC001", "QUERY_RECORD", "SYSTEM", ⟨8, 0⟩,
          "Record REC001 queried"⟩)], 2⟩) :=
  have h := C9_failed_invocation_leaves_ledger Lib.toy (Env.calm "tx4" (clockAt 8)) sampleWorld
    (.wrap "failed to decrypt data: " (.keySize 30)) "REC001" "" "" "" "" ""
  ⟨rfl, h.2.2.2.1 rfl,
    ((C9_failed_invocation_leaves_ledger Lib.toy (Env.calm "tx4" (clockAt 8)) sampleWorld
      (.keySize 30) "REC001" "" "" "" "" "").2.2.2.2.2.2 hospitalKey
      (marshalRecord sampleRecord) sampleRecord rfl rfl rfl rfl rfl).1⟩

theorem QueryRecord_result_ignores_putFault (L : Lib) (env : Env) (f : String → Option String)
    (recordID : String) (w : World) (tx : Tx) :
    (QueryRecord L { env with putFault := f } recordID w tx).1 =
      (QueryRecord L env recordID w tx).1 := by
  cases hg : env.getFault recordID with
  | some e =>
    rw [QueryRecord_getFault L env recordID w tx e hg,
      QueryRecord_getFault L { env with putFault := f } recordID w tx e hg]
  | none =>
    cases hv : w.get recordID with
    | none =>
      rw [QueryRecord_absent L env recordID w tx hv hg,
        QueryRecord_absent L { env with putFault := f } recordID w tx hv hg]
    | some v =>
      cases hu : unmarshalRecord L v with
      | error e => simp [QueryRecord, GetState, hg, hv, hu]
      | ok record =>
        rw [QueryRecord_stored L env recordID w tx v record hv hg hu,
          QueryRecord_stored L { env with putFault := f } recordID w tx v record hv hg hu]

/-- C10: `QueryRecord` and `VerifyIntegrity` report success although the stub fails the put of
the audit entry. Whether `QueryRecord` returns a Record or an error never depends on the
failures of `PutState`; and on a ledger holding `sampleRecord`, with a stub that fails every
`PutState`, `QueryRecord("REC001")` returns the Record and `VerifyIntegrity("REC001")` returns
`true`, with nothing written. -/
theorem C10_audit_put_failure_is_dropped (L : Lib) (env : Env) (f : String → Option String)
    (recordID : String) (w : World) (tx : Tx) :
    (QueryRecord L { env with putFault := f } recordID w tx).1 =
      (QueryRecord L env recordID w tx).1 ∧
    PutState (Env.putDown "tx5" (clockAt 9)) "AUDIT_REC001_9"
        (marshalAudit ⟨"tx5", "REC001", "QUERY_RECORD", "SYSTEM", ⟨9, 0⟩,
          "Record REC001 queried"⟩) Tx.start =
      (some (.stub "ledger unavailable"), Tx.start) ∧
    submit (QueryRecord Lib.toy (Env.putDown "tx5" (clockAt 9)) "REC001") sampleWorld =
      (.ok sampleRecord, sampleWorld) ∧
    submit (VerifyIntegrity Lib.toy (Env.putDown "tx5" (clockAt 9)) "REC001") sampleWorld =
      (.ok true, sampleWorld) :=
  ⟨QueryRecord_result_ignores_putFault L env f recordID w tx, rfl, rfl, rfl⟩

/-- C15: the key `hospitalKey` that `AddRecord` and `DecryptRecord` pass to the crypto helpers
has 30 bytes, not 32, and `aes.NewCipher` rejects it with the key-size error, so `encryptAES`
fails with that error for every plaintext. -/
theorem C15_hospitalKey_has_30_bytes :
    hospitalKey.length = 30 ∧ hospitalKey.length ≠ 32 ∧
    NewCipher hospitalKey = .error (.keySize 30) ∧
    ∀ (L : Lib) (env : Env) (p : String),
      encryptAES L env p hospitalKey = .error (.keySize 30) :=
  ⟨by decide, by decide, rfl, fun L env p => encryptAES_hospitalKey L env p⟩

theorem NewCipher_ok (key : List Nat)
    (hk : key.length = 16 ∨ key.length = 24 ∨ key.length = 32) : NewCipher key = .ok key := by
  simp [NewCipher, hk]

theorem nonce_length (env : Env) : ((List.range NonceSize).map env.randByte).length = 12 := by
  simp [NonceSize]

/-- C16: for every plaintext, every key of 32 bytes and every nonce the random source yields,
`encryptAES` succeeds, its result is the base64 text of the nonce followed by the sealed data,
and, when base64 decoding undoes that encoding and `Open` undoes `Seal` under this key and
nonce, `decryptAES` of the result with the same key splits the decoded bytes at 12 into exactly
that nonce and that sealed data and returns the plaintext. -/
theorem C16_decryptAES_reverses_encryptAES (L : Lib) (env : Env) (p : String) (key : List Nat)
    (hk : key.length = 32) (hr : env.randFault = false)
    (hb : L.b64decode (L.b64encode ((List.range NonceSize).map env.randByte ++
        L.gcmSeal key ((List.range NonceSize).map env.randByte) p)) =
      some ((List.range NonceSize).map env.randByte ++
        L.gcmSeal key ((List.range NonceSize).map env.randByte) p))
    (ho : L.gcmOpen key ((List.range NonceSize).map env.randByte)
      (L.gcmSeal key ((List.range NonceSize).map env.randByte) p) = some p) :
    encryptAES L env p key =
      .ok (L.b64encode ((List.range NonceSize).map env.randByte ++
        L.gcmSeal key ((List.range NonceSize).map env.randByte) p)) ∧
    (((List.range NonceSize).map env.randByte ++
        L.gcmSeal key ((List.range NonceSize).map env.randByte) p).take NonceSize =
      (List.range NonceSize).map env.randByte) ∧
    (((List.range NonceSize).map env.randByte ++
        L.gcmSeal key ((List.range NonceSize).map env.randByte) p).drop NonceSize =
      L.gcmSeal key ((List.range NonceSize).map env.randByte) p) ∧
    ∃ c, encryptAES L env p key = .ok c ∧ decryptAES L c key = .ok p := by
  have hnc : NewCipher key = .ok key := NewCipher_ok key (Or.inr (Or.inr hk))
  have hlen : ((List.range NonceSize).map env.randByte).length = NonceSize := by simp
  have henc : encryptAES L env p key =
      .ok (L.b64encode ((List.range NonceSize).map env.randByte ++
        L.gcmSeal key ((List.range NonceSize).map env.randByte) p)) := by
    simp [encryptAES, hnc, hr]
  have htake : ((List.range NonceSize).map env.randByte ++
      L.gcmSeal key ((List.range NonceSize).map env.randByte) p).take NonceSize =
      (List.range NonceSize).map env.randByte := by
    rw [List.take_append_of_le_length (le_of_eq hlen.symm), List.take_of_length_le (le_of_eq hlen)]
  have hdrop : ((List.range NonceSize).map env.randByte ++
      L.gcmSeal key ((List.range NonceSize).map env.randByte) p).drop NonceSize =
      L.gcmSeal key ((List.range NonceSize).map env.randByte) p := by
    rw [List.drop_append_of_le_length (le_of_eq hlen.symm), List.drop_of_length_le (le_of_eq hlen),
      List.nil_append]
  refine ⟨henc, htake, hdrop, _, henc, ?_⟩
  have hge : ¬ ((List.range NonceSize).map env.randByte ++
      L.gcmSeal key ((List.range NonceSize).map env.randByte) p).length < NonceSize := by
    rw [List.length_append, hlen]
    omega
  simp only [decryptAES, hb, hnc, hge, if_false, htake, hdrop, ho]

/-- C16 for the plaintext of the sample record, a 32-byte key and the nonce of twelve zero
bytes. -/
theorem C16_decryptAES_reverses_encryptAES_witness :
    (key32.length = 32 ∧ (Env.calm "tx1" (clockAt 5)).randFault = false) ∧
    ∃ c, encryptAES Lib.toy (Env.calm "tx1" (clockAt 5)) sampleRaw key32 = .ok c ∧
      decryptAES Lib.toy c key32 = .ok sampleRaw :=
  ⟨⟨rfl, rfl⟩, (C16_decryptAES_reverses_encryptAES Lib.toy (Env.calm "tx1" (clockAt 5)) sampleRaw
    key32 rfl rfl rfl rfl).2.2.2⟩

/-- C17: for every key `aes.NewCipher` accepts and every input string, `decryptAES` returns an
error when the input does not decode as base64, when the decoded bytes are fewer than 12, and
when `Open` fails on the first 12 bytes as nonce and the rest as sealed data; and whenever it
hands a split to `Open` (it returns a plaintext or the authentication error), the decoded bytes
are at least 12, so the nonce has exactly 12 bytes and nonce and sealed data together are the
decoded bytes. -/
theorem C17_decryptAES_errors (L : Lib) (ciphertext : String) (key : List Nat)
    (hk : key.length = 16 ∨ key.length = 24 ∨ key.length = 32) :
    (L.b64decode ciphertext = none → decryptAES L ciphertext key = .error .corruptInput) ∧
    (∀ data, L.b64decode ciphertext = some data → data.length < NonceSize →
      decryptAES L ciphertext key = .error (.errorf "ciphertext too short")) ∧
    (∀ data, L.b64decode ciphertext = some data → NonceSize ≤ data.length →
      L.gcmOpen key (data.take NonceSize) (data.drop NonceSize) = none →
      decryptAES L ciphertext key = .error .authFailed) ∧
    (∀ data, L.b64decode ciphertext = some data → NonceSize ≤ data.length →
      ∀ p, L.gcmOpen key (data.take NonceSize) (data.drop NonceSize) = some p →
      decryptAES L ciphertext key = .ok p) ∧
    ((decryptAES L ciphertext key = .error .authFailed ∨
        ∃ p, decryptAES L ciphertext key = .ok p) →
      ∃ data, L.b64decode ciphertext = some data ∧ NonceSize ≤ data.length ∧
        (data.take NonceSize).length = NonceSize ∧
        data.take NonceSize ++ data.drop NonceSize = data) := by
  have hnc : NewCipher key = .ok key := NewCipher_ok key hk
  refine ⟨?_, ?_, ?_, ?_, ?_⟩
  · intro hd
    simp [decryptAES, hd]
  · intro data hd hlt
    simp [decryptAES, hd, hnc, hlt]
  · intro data hd hge ho
    simp [decryptAES, hd, hnc, Nat.not_lt.2 hge, ho]
  · intro data hd hge p ho
    simp [decryptAES, hd, hnc, Nat.not_lt.2 hge, ho]
  · intro h
    cases hd : L.b64decode ciphertext with
    | none =>
      simp [decryptAES, hd] at h
    | some data =>
      by_cases hlt : data.length < NonceSize
      · simp [decryptAES, hd, hnc, hlt] at h
      · have hge : NonceSize ≤ data.length := Nat.not_lt.1 hlt
        exact ⟨data, rfl, hge, List.length_take_of_le hge, List.take_append_drop _ _⟩

/-- C17 with a 32-byte key: an input that decodes to 3 bytes is too short, and the sample
ciphertext with its last character changed fails authentication. -/
theorem C17_decryptAES_errors_witness :
    (key32.length = 16 ∨ key32.length = 24 ∨ key32.length = 32) ∧
    decryptAES Lib.toy "abc" key32 = .error (.errorf "ciphertext too short") ∧
    decryptAES Lib.toy (sampleRecord.EncryptedData ++ "x") key32 = .error .authFailed :=
  have h := C17_decryptAES_errors Lib.toy "abc" key32 (Or.inr (Or.inr rfl))
  ⟨Or.inr (Or.inr rfl), h.2.1 (bytesOf "abc") rfl (by decide),
    (C17_decryptAES_errors Lib.toy (sampleRecord.EncryptedData ++ "x") key32
      (Or.inr (Or.inr rfl))).2.2.1 (bytesOf (sampleRecord.EncryptedData ++ "x")) rfl
      (by decide) rfl⟩

theorem World.get_commit_of_ne (w : World) (writes : List (String × Value)) (r : String)
    (h : ∀ kv ∈ writes, kv.1 ≠ r) : (w.commit writes).get r = w.get r := by
  induction writes generalizing w with
  | nil => rfl
  | cons x xs ih =>
    have hx : r ≠ x.1 := fun e => h x (List.mem_cons_self _ _) e.symm
    have hrest := ih (w.put x.1 x.2) (fun kv hkv => h kv (List.mem_cons_of_mem _ hkv))
    have hstep : World.commit w (x :: xs) = World.commit (w.put x.1 x.2) xs := rfl
    rw [hstep, hrest, World.get_put_of_ne _ _ _ _ hx]

theorem submit_get_of_writes_ne {α : Type} (op : World → Tx → Except GoError α × Tx)
    (w : World) (r : String) (h : ∀ kv ∈ (op w Tx.start).2.writes, kv.1 ≠ r) :
    (submit op w).2.get r = w.get r := by
  rcases hop : op w Tx.start with ⟨res, tx⟩
  cases res with
  | error e => rw [submit_of_error op w e (by rw [hop])]
  | ok a =>
    rw [submit_of_ok op w a (by rw [hop])]
    exact World.get_commit_of_ne _ _ _ h

theorem mem_PutState_writes (env : Env) (k : String) (v : Value) (tx : Tx)
    (kv : String × Value) (h : kv ∈ (PutState env k v tx).2.writes) :
    kv ∈ tx.writes ∨ kv = (k, v) := by
  unfold PutState at h
  cases hp : env.putFault k with
  | some e =>
    rw [hp] at h
    exact Or.inl h
  | none =>
    rw [hp] at h
    simp only [List.mem_append, List.mem_singleton] at h
    exact h

theorem QueryRecord_writes (L : Lib) (env : Env) (recordID : String) (w : World) (tx : Tx)
    (kv : String × Value) (h : kv ∈ (QueryRecord L env recordID w tx).2.writes) :
    kv ∈ tx.writes ∨ ∃ t, kv.1 = auditKey recordID t := by
  cases hg : env.getFault recordID with
  | some e =>
    rw [QueryRecord_getFault L env recordID w tx e hg] at h
    exact Or.inl h
  | none =>
    cases hv : w.get recordID with
    | none =>
      rw [QueryRecord_absent L env recordID w tx hv hg] at h
      exact Or.inl h
    | some v =>
      cases hu : unmarshalRecord L v with
      | error e =>
        have hq : QueryRecord L env recordID w tx = (.error e, tx) := by
          simp [QueryRecord, GetState, hg, hv, hu]
        rw [hq] at h
        exact Or.inl h
      | ok record =>
        rw [QueryRecord_stored L env recordID w tx v record hv hg hu] at h
        rcases mem_PutState_writes _ _ _ _ _ h with h' | h'
        · exact Or.inl h'
        · exact Or.inr ⟨_, by rw [h']⟩

theorem VerifyIntegrity_writes (L : Lib) (env : Env) (recordID : String) (w : World) (tx : Tx)
    (kv : String × Value) (h : kv ∈ (VerifyIntegrity L env recordID w tx).2.writes) :
    kv ∈ tx.writes ∨ ∃ t, kv.1 = auditKey recordID t := by
  have hq := QueryRecord_writes L env recordID w tx kv
  unfold VerifyIntegrity at h
  rcases hqr : QueryRecord L env recordID w tx with ⟨res, tx1⟩
  rw [hqr] at h hq
  cases res with
  | error e => exact hq h
  | ok record =>
    simp only [Now] at h
    rcases mem_PutState_writes _ _ _ _ _ h with h' | h'
    · exact hq h'
    · exact Or.inr ⟨_, by rw [h']⟩

theorem DecryptRecordWith_writes (key : List Nat) (L : Lib) (env : Env) (recordID : String)
    (w : World) (tx : Tx) (kv : String × Value)
    (h : kv ∈ (DecryptRecordWith key L env recordID w tx).2.writes) :
    kv ∈ tx.writes ∨ ∃ t, kv.1 = auditKey recordID t := by
  have hq := QueryRecord_writes L env recordID w tx kv
  unfold DecryptRecordWith at h
  rcases hqr : QueryRecord L env recordID w tx with ⟨res, tx1⟩
  rw [hqr] at h hq
  cases res with
  | error e => exact hq h
  | ok record =>
    simp only at h
    cases hd : decryptAES L record.EncryptedData key with
    | error e =>
      rw [hd] at h
      exact hq h
    | ok p =>
      rw [hd] at h
      simp only [Now] at h
      rcases mem_PutState_writes _ _ _ _ _ h with h' | h'
      · exact hq h'
      · exact Or.inr ⟨_, by rw [h']⟩

theorem AddRecordWith_writes (key : List Nat) (L : Lib) (env : Env)
    (recordID patientID doctorID description hospital source : String) (w : World) (tx : Tx)
    (kv : String × Value)
    (h : kv ∈ (AddRecordWith key L env recordID patientID doctorID description hospital source
      w tx).2.writes) :
    kv ∈ tx.writes ∨ (kv.1 = recordID ∧ w.get recordID = none) ∨
      ∃ t, kv.1 = auditKey recordID t := by
  cases hg : env.getFault recordID with
  | some e =>
    rw [AddRecordWith_getFault key L env _ _ _ _ _ _ w tx e hg] at h
    exact Or.inl h
  | none =>
    cases hv : w.get recordID with
    | some v =>
      rw [AddRecordWith_existing key L env _ _ _ _ _ _ w tx v hv hg] at h
      exact Or.inl h
    | none =>
      cases he : encryptAES L env ("Patient: " ++ patientID ++ ", Doctor: " ++ doctorID ++
          ", Description: " ++ description ++ ", Hospital: " ++ hospital) key with
      | error e =>
        have hq : AddRecordWith key L env recordID patientID doctorID description hospital
            source w tx = (.error (.wrap "failed to encrypt data: " e), tx) := by
          simp [AddRecordWith, GetState, hg, hv, he]
        rw [hq] at h
        exact Or.inl h
      | ok enc =>
        cases hp : env.putFault recordID with
        | some e =>
          have hq : AddRecordWith key L env recordID patientID doctorID description hospital
              source w tx = (.error (.stub e), ⟨tx.writes, tx.ticks + 3⟩) := by
            simp [AddRecordWith, GetState, hg, hv, he, Now, PutState, hp]
          rw [hq] at h
          exact Or.inl h
        | none =>
          rw [AddRecordWith_absent key L env _ _ _ _ _ _ w tx enc hv hg he hp] at h
          rcases mem_PutState_writes _ _ _ _ _ h with h' | h'
          · simp only [List.mem_append, List.mem_singleton] at h'
            rcases h' with h' | h'
            · exact Or.inl h'
            · exact Or.inr (Or.inl ⟨by rw [h'], rfl⟩)
          · exact Or.inr (Or.inr ⟨_, by rw [h']⟩)

/-- With a 32-byte key in place of `hospitalKey` and a clock that advances one second per
reading, the record stored for ("REC001","P1","D1","flu","CityHosp","EHR") has timestamp
second 0, created_at second 1 and updated_at second 2. -/
theorem AddRecordWith_key32_times_differ :
    (submit (AddRecordWith key32 Lib.toy (Env.calm "tx1" clockTicking) "REC001" "P1" "D1" "flu"
        "CityHosp" "EHR") []).2.get "REC001" =
      some (marshalRecord { sampleRecord with
        Timestamp := ⟨0, 0⟩, CreatedAt := ⟨1, 0⟩, UpdatedAt := ⟨2, 0⟩ }) ∧
    ({ sampleRecord with
        Timestamp := ⟨0, 0⟩, CreatedAt := ⟨1, 0⟩, UpdatedAt := ⟨2, 0⟩ } : HealthRecord).UpdatedAt ≠
      ({ sampleRecord with
        Timestamp := ⟨0, 0⟩, CreatedAt := ⟨1, 0⟩, UpdatedAt := ⟨2, 0⟩ } : HealthRecord).CreatedAt :=
  ⟨rfl, by decide⟩

/-- The Record that `AddRecordWith` stores (for a key its encryption succeeds with, the read and
the put of `record_id` succeeding) has timestamp, created_at and updated_at equal to the first,
the second and the third reading of the clock during the invocation. -/
theorem AddRecordWith_stored_times (key : List Nat) (L : Lib) (env : Env)
    (recordID patientID doctorID description hospital source : String) (w : World)
    (encryptedData : String) (hv : w.get recordID = none) (hg : env.getFault recordID = none)
    (he : encryptAES L env ("Patient: " ++ patientID ++ ", Doctor: " ++ doctorID ++
      ", Description: " ++ description ++ ", Hospital: " ++ hospital) key = .ok encryptedData)
    (hp : env.putFault recordID = none) :
    ∃ record : HealthRecord,
      (submit (AddRecordWith key L env recordID patientID doctorID description hospital source)
        w).2.get recordID = some (marshalRecord record) ∧
      record.Timestamp = env.clock 0 ∧ record.CreatedAt = env.clock 1 ∧
      record.UpdatedAt = env.clock 2 ∧
      (record.UpdatedAt = record.CreatedAt ↔ env.clock 2 = env.clock 1) :=
  ⟨_, (AddRecordWith_stores key L env recordID patientID doctorID description hospital source w
    encryptedData hv hg he hp).2, rfl, rfl, rfl, Iff.rfl⟩

/-- The stored times on the empty ledger with a 32-byte key and a clock that advances one
second per reading. -/
theorem stored_times_are_clock_readings_example :
    World.get [] "REC001" = none ∧
    ∃ record : HealthRecord,
      (submit (AddRecordWith key32 Lib.toy (Env.calm "tx1" clockTicking) "REC001" "P1" "D1" "flu"
        "CityHosp" "EHR") []).2.get "REC001" = some (marshalRecord record) ∧
      record.Timestamp = ⟨0, 0⟩ ∧ record.CreatedAt = ⟨1, 0⟩ ∧ record.UpdatedAt = ⟨2, 0⟩ ∧
      (record.UpdatedAt = record.CreatedAt ↔ clockTicking 2 = clockTicking 1) :=
  ⟨rfl, AddRecordWith_stored_times key32 Lib.toy (Env.calm "tx1" clockTicking) "REC001"
    "P1" "D1" "flu" "CityHosp" "EHR" [] sampleRecord.EncryptedData rfl rfl rfl rfl⟩

/-- C19: the audit key of a record id and a unix second is never the record id itself; so the
invocation of `QueryRecord`, `VerifyIntegrity` or `DecryptRecord` (with any key) on `record_id`
leaves the value stored at `record_id` as it was, whether it succeeds or fails; and after an
`AddRecord` that stores a record (for a key its encryption succeeds with) the ledger holds that
record at `record_id`, whether or not the audit write succeeded. -/
theorem C19_audit_key_is_not_the_record_key (key : List Nat) (L : Lib) (env : Env)
    (recordID patientID doctorID description hospital source : String) (w : World)
    (encryptedData : String) (hv : w.get recordID = none) (hg : env.getFault recordID = none)
    (he : encryptAES L env ("Patient: " ++ patientID ++ ", Doctor: " ++ doctorID ++
      ", Description: " ++ description ++ ", Hospital: " ++ hospital) key = .ok encryptedData)
    (hp : env.putFault recordID = none) :
    (∀ (r : String) (unix : Int), auditKey r unix ≠ r) ∧
    (∀ (env' : Env) (r : String) (w' : World),
      (submit (QueryRecord L env' r) w').2.get r = w'.get r ∧
      (submit (VerifyIntegrity L env' r) w').2.get r = w'.get r ∧
      (submit (DecryptRecordWith key L env' r) w').2.get r = w'.get r ∧
      (submit (DecryptRecord L env' r) w').2.get r = w'.get r) ∧
    (submit (AddRecordWith key L env recordID patientID doctorID description hospital source)
        w).2.get recordID =
      some (marshalRecord ⟨recordID, patientID, doctorID,
        "Patient: " ++ patientID ++ ", Doctor: " ++ doctorID ++
          ", Description: " ++ description ++ ", Hospital: " ++ hospital,
        Sprintf_x (L.sha256 ("Patient: " ++ patientID ++ ", Doctor: " ++ doctorID ++
          ", Description: " ++ description ++ ", Hospital: " ++ hospital)),
        encryptedData, hospital, env.clock 0, source, env.clock 1, env.clock 2⟩) := by
  refine ⟨auditKey_ne_self, ?_, (AddRecordWith_stores key L env recordID patientID doctorID
    description hospital source w encryptedData hv hg he hp).2⟩
  intro env' r w'
  have hne : ∀ kv : String × Value,
      (kv ∈ Tx.start.writes ∨ ∃ t, kv.1 = auditKey r t) → kv.1 ≠ r := by
    intro kv h
    rcases h with h | ⟨t, ht⟩
    · simp [Tx.start] at h
    · rw [ht]
      exact auditKey_ne_self r t
  exact ⟨submit_get_of_writes_ne _ w' r (fun kv h => hne kv (QueryRecord_writes _ _ _ _ _ kv h)),
    submit_get_of_writes_ne _ w' r (fun kv h => hne kv (VerifyIntegrity_writes _ _ _ _ _ kv h)),
    submit_get_of_writes_ne _ w' r
      (fun kv h => hne kv (DecryptRecordWith_writes key _ _ _ _ _ kv h)),
    submit_get_of_writes_ne _ w' r
      (fun kv h => hne kv (DecryptRecordWith_writes hospitalKey _ _ _ _ _ kv h))⟩

/-- C19 with a 32-byte key: `AddRecord` on the empty ledger, and `VerifyIntegrity` and
`DecryptRecord` on the ledger holding the sample record. -/
theorem C19_audit_key_is_not_the_record_key_witness :
    World.get [] "REC001" = none ∧
    auditKey "REC001" 5 ≠ "REC001" ∧
    (submit (VerifyIntegrity Lib.toy (Env.calm "tx3" (clockAt 5)) "REC001") sampleWorld).2.get
      "REC001" = some (marshalRecord sampleRecord) ∧
    (submit (DecryptRecordWith key32 Lib.toy (Env.calm "tx3" (clockAt 5)) "REC001")
      sampleWorld).2.get "REC001" = some (marshalRecord sampleRecord) ∧
    (submit (AddRecordWith key32 Lib.toy (Env.calm "tx1" (clockAt 5)) "REC001" "P1" "D1" "flu"
      "CityHosp" "EHR") []).2.get "REC001" = some (marshalRecord sampleRecord) :=
  have h := C19_audit_key_is_not_the_record_key key32 Lib.toy (Env.calm "tx1" (clockAt 5))
    "REC001" "P1" "D1" "flu" "CityHosp" "EHR" [] sampleRecord.EncryptedData rfl rfl rfl rfl
  ⟨rfl, h.1 "REC001" 5, (h.2.1 (Env.calm "tx3" (clockAt 5)) "REC001" sampleWorld).2.1,
    (h.2.1 (Env.calm "tx3" (clockAt 5)) "REC001" sampleWorld).2.2.1, h.2.2⟩

/-- C20: when the Records stored at `record_id` in two ledger states differ at most in their
encryptedData field, `VerifyIntegrity` returns the same result in both, from the operation and
from the committed invocation; with the read succeeding it is the comparison of the hash of the
stored plaintext with the stored hash, in which the ciphertext does not occur. -/
theorem C20_VerifyIntegrity_ignores_ciphertext (L : Lib) (env : Env) (recordID : String)
    (w1 w2 : World) (tx : Tx) (v1 v2 : Value) (record : HealthRecord) (ciphertext : String)
    (hv1 : w1.get recordID = some v1) (hv2 : w2.get recordID = some v2)
    (hu1 : unmarshalRecord L v1 = .ok record)
    (hu2 : unmarshalRecord L v2 = .ok { record with EncryptedData := ciphertext }) :
    (VerifyIntegrity L env recordID w1 tx).1 = (VerifyIntegrity L env recordID w2 tx).1 ∧
    (submit (VerifyIntegrity L env recordID) w1).1 =
      (submit (VerifyIntegrity L env recordID) w2).1 ∧
    (env.getFault recordID = none →
      (VerifyIntegrity L env recordID w2 tx).1 =
        .ok (decide (Sprintf_x (L.sha256 record.RawData) = record.Hash))) := by
  have key : ∀ tx, (VerifyIntegrity L env recordID w1 tx).1 =
      (VerifyIntegrity L env recordID w2 tx).1 := by
    intro tx
    cases hg : env.getFault recordID with
    | some e =>
      rw [VerifyIntegrity_of_error _ _ _ _ _ _ _ (QueryRecord_getFault L env recordID w1 tx e hg),
        VerifyIntegrity_of_error _ _ _ _ _ _ _ (QueryRecord_getFault L env recordID w2 tx e hg)]
    | none =>
      rw [VerifyIntegrity_stored L env recordID w1 tx v1 record hv1 hg hu1,
        VerifyIntegrity_stored L env recordID w2 tx v2 _ hv2 hg hu2]
  refine ⟨key tx, ?_, ?_⟩
  · have h := key Tx.start
    rcases h1 : VerifyIntegrity L env recordID w1 Tx.start with ⟨res1, tx1⟩
    rcases h2 : VerifyIntegrity L env recordID w2 Tx.start with ⟨res2, tx2⟩
    rw [h1, h2] at h
    simp only at h
    subst h
    cases res1 with
    | error e =>
      rw [submit_of_error _ w1 e (by rw [h1]), submit_of_error _ w2 e (by rw [h2])]
    | ok b =>
      rw [submit_of_ok _ w1 b (by rw [h1]), submit_of_ok _ w2 b (by rw [h2])]
  · intro hg
    rw [VerifyIntegrity_stored L env recordID w2 tx v2 _ hv2 hg hu2]

/-- C20 at the sample ledger and at the ledger whose record has its ciphertext replaced:
`VerifyIntegrity` returns `true` in both. -/
theorem C20_VerifyIntegrity_ignores_ciphertext_witness :
    (sampleWorld.get "REC001" = some (marshalRecord sampleRecord) ∧
      World.get [("REC001", marshalRecord { sampleRecord with EncryptedData := "tampered" })]
        "REC001" = some (marshalRecord { sampleRecord with EncryptedData := "tampered" })) ∧
    (VerifyIntegrity Lib.toy (Env.calm "tx3" (clockAt 7)) "REC001" sampleWorld Tx.start).1 =
      (VerifyIntegrity Lib.toy (Env.calm "tx3" (clockAt 7)) "REC001"
        [("REC001", marshalRecord { sampleRecord with EncryptedData := "tampered" })]
        Tx.start).1 ∧
    (VerifyIntegrity Lib.toy (Env.calm "tx3" (clockAt 7)) "REC001"
      [("REC001", marshalRecord { sampleRecord with EncryptedData := "tampered" })]
      Tx.start).1 = .ok true :=
  have h := C20_VerifyIntegrity_ignores_ciphertext Lib.toy (Env.calm "tx3" (clockAt 7)) "REC001"
    sampleWorld [("REC001", marshalRecord { sampleRecord with EncryptedData := "tampered" })]
    Tx.start (marshalRecord sampleRecord)
    (marshalRecord { sampleRecord with EncryptedData := "tampered" }) sampleRecord "tampered"
    rfl rfl rfl rfl
  ⟨⟨rfl, rfl⟩, h.1, h.2.2 rfl⟩

theorem InitLedger_writes (env : Env) (w : World) (tx : Tx) (kv : String × Value)
    (h : kv ∈ (InitLedger env w tx).2.writes) : kv ∈ tx.writes ∨ kv.1 = "AUDIT_INIT" := by
  unfold InitLedger at h
  simp only [Now, PutState] at h
  cases hp : env.putFault "AUDIT_INIT" with
  | some e =>
    rw [hp] at h
    exact Or.inl h
  | none =>
    rw [hp] at h
    simp only [List.mem_append, List.mem_singleton] at h
    rcases h with h | h
    · exact Or.inl h
    · exact Or.inr (by rw [h])

theorem GetAllRecords_tx (L : Lib) (env : Env) (w : World) (tx : Tx) :
    (GetAllRecords L env w tx).2 = tx := by
  unfold GetAllRecords
  split <;> rfl

theorem GetAuditTrail_tx (L : Lib) (env : Env) (recordID : String) (w : World) (tx : Tx) :
    (GetAuditTrail L env recordID w tx).2 = tx := by
  simp only [GetAuditTrail]
  split <;> rfl

/-- C11 as stated fails. `InitLedger` on a ledger holding a record under the key "AUDIT_INIT"
replaces it by the INIT_LEDGER entry; and `QueryRecord("REC001")` in second 5 on a ledger that
also holds a record under the key "AUDIT_REC001_5" replaces that record by the QUERY_RECORD
entry. -/
theorem C11_audit_write_replaces_a_record :
    (World.get [("AUDIT_INIT", marshalRecord { sampleRecord with RecordID := "AUDIT_INIT" })]
        "AUDIT_INIT" =
      some (marshalRecord { sampleRecord with RecordID := "AUDIT_INIT" }) ∧
    (submit (InitLedger (Env.calm "tx0" (clockAt 3)))
        [("AUDIT_INIT", marshalRecord { sampleRecord with RecordID := "AUDIT_INIT" })]).2.get
        "AUDIT_INIT" =
      some (marshalAudit ⟨"tx0", "SYSTEM", "INIT_LEDGER", "SYSTEM", ⟨3, 0⟩,
        "Hyperledger Fabric network initialized"⟩) ∧
    marshalAudit ⟨"tx0", "SYSTEM", "INIT_LEDGER", "SYSTEM", ⟨3, 0⟩,
        "Hyperledger Fabric network initialized"⟩ ≠
      marshalRecord { sampleRecord with RecordID := "AUDIT_INIT" }) ∧
    (World.get [("REC001", marshalRecord sampleRecord),
        ("AUDIT_REC001_5", marshalRecord { sampleRecord with RecordID := "AUDIT_REC001_5" })]
        "AUDIT_REC001_5" =
      some (marshalRecord { sampleRecord with RecordID := "AUDIT_REC001_5" }) ∧
    (submit (QueryRecord Lib.toy (Env.calm "tx2" (clockAt 5)) "REC001")
        [("REC001", marshalRecord sampleRecord),
          ("AUDIT_REC001_5",
            marshalRecord { sampleRecord with RecordID := "AUDIT_REC001_5" })]).2.get
        "AUDIT_REC001_5" =
      some (marshalAudit ⟨"tx2", "REC001", "QUERY_RECORD", "SYSTEM", ⟨5, 0⟩,
        "Record REC001 queried"⟩) ∧
    marshalAudit ⟨"tx2", "REC001", "QUERY_RECORD", "SYSTEM", ⟨5, 0⟩, "Record REC001 queried"⟩ ≠
      marshalRecord { sampleRecord with RecordID := "AUDIT_REC001_5" }) :=
  ⟨⟨rfl, rfl, by decide⟩, rfl, rfl, by decide⟩

/-- C11, amended: when a value is stored at a key `r` that is neither "AUDIT_INIT" nor the audit
key of any record id and unix second, the invocation of any public operation (`InitLedger`,
`AddRecord`, `QueryRecord`, `VerifyIntegrity`, `DecryptRecord`, `GetAllRecords`,
`GetAuditTrail`; `AddRecord` and `DecryptRecord` with any key) with any arguments at any time
leaves the value stored at `r` as it was. -/
theorem C11_value_kept_outside_audit_keys (key : List Nat) (L : Lib) (env : Env) (w : World)
    (r : String) (v : Value)
    (recordID patientID doctorID description hospital source : String)
    (hv : w.get r = some v) (hr : r ≠ "AUDIT_INIT")
    (hk : ∀ (x : String) (unix : Int), r ≠ auditKey x unix) :
    (submit (InitLedger env) w).2.get r = some v ∧
    (submit (AddRecord L env recordID patientID doctorID description hospital source)
      w).2.get r = some v ∧
    (submit (AddRecordWith key L env recordID patientID doctorID description hospital source)
      w).2.get r = some v ∧
    (submit (QueryRecord L env recordID) w).2.get r = some v ∧
    (submit (VerifyIntegrity L env recordID) w).2.get r = some v ∧
    (submit (DecryptRecord L env recordID) w).2.get r = some v ∧
    (submit (DecryptRecordWith key L env recordID) w).2.get r = some v ∧
    (submit (GetAllRecords L env) w).2.get r = some v ∧
    (submit (GetAuditTrail L env recordID) w).2.get r = some v := by
  have h0 : ∀ kv : String × Value, kv ∈ Tx.start.writes → kv.1 ≠ r := by
    intro kv h
    simp [Tx.start] at h
  have haudit : ∀ kv : String × Value,
      (kv ∈ Tx.start.writes ∨ ∃ t, kv.1 = auditKey recordID t) → kv.1 ≠ r := by
    intro kv h
    rcases h with h | ⟨t, ht⟩
    · exact h0 kv h
    · rw [ht]
      exact fun e => hk recordID t e.symm
  have hadd : ∀ kv : String × Value,
      (kv ∈ Tx.start.writes ∨ (kv.1 = recordID ∧ w.get recordID = none) ∨
        ∃ t, kv.1 = auditKey recordID t) → kv.1 ≠ r := by
    intro kv h
    rcases h with h | ⟨h1, h2⟩ | h
    · exact h0 kv h
    · intro e
      rw [h1] at e
      rw [e, hv] at h2
      exact Option.noConfusion h2
    · exact haudit kv (Or.inr h)
  refine ⟨?_, ?_, ?_, ?_, ?_, ?_, ?_, ?_, ?_⟩
  · rw [submit_get_of_writes_ne _ w r, hv]
    intro kv h
    rcases InitLedger_writes env w Tx.start kv h with h | h
    · exact h0 kv h
    · rw [h]
      exact fun e => hr e.symm
  · rw [submit_get_of_writes_ne _ w r, hv]
    exact fun kv h => hadd kv (AddRecordWith_writes hospitalKey L env _ _ _ _ _ _ w _ kv h)
  · rw [submit_get_of_writes_ne _ w r, hv]
    exact fun kv h => hadd kv (AddRecordWith_writes key L env _ _ _ _ _ _ w _ kv h)
  · rw [submit_get_of_writes_ne _ w r, hv]
    exact fun kv h => haudit kv (QueryRecord_writes L env _ w _ kv h)
  · rw [submit_get_of_writes_ne _ w r, hv]
    exact fun kv h => haudit kv (VerifyIntegrity_writes L env _ w _ kv h)
  · rw [submit_get_of_writes_ne _ w r, hv]
    exact fun kv h => haudit kv (DecryptRecordWith_writes hospitalKey L env _ w _ kv h)
  · rw [submit_get_of_writes_ne _ w r, hv]
    exact fun kv h => haudit kv (DecryptRecordWith_writes key L env _ w _ kv h)
  · rw [submit_get_of_writes_ne _ w r, hv]
    intro kv h
    rw [GetAllRecords_tx] at h
    exact h0 kv h
  · rw [submit_get_of_writes_ne _ w r, hv]
    intro kv h
    rw [GetAuditTrail_tx] at h
    exact h0 kv h

theorem not_auditKey_of_head (r x : String) (unix : Int) (c : Char) (rest : List Char)
    (hr : r.toList = c :: rest) (hc : c ≠ 'A') : r ≠ auditKey x unix := by
  intro h
  have h' := congrArg String.toList h
  rw [hr] at h'
  simp [auditKey] at h'
  exact hc h'.1

/-- C11 amended, at the ledger holding the sample record under "REC001": `InitLedger`, and
`QueryRecord`, `VerifyIntegrity` and `AddRecord` with a 32-byte key for another record, leave
it in place. -/
theorem C11_value_kept_outside_audit_keys_witness :
    (sampleWorld.get "REC001" = some (marshalRecord sampleRecord) ∧ "REC001" ≠ "AUDIT_INIT") ∧
    (submit (InitLedger (Env.calm "tx7" (clockAt 5))) sampleWorld).2.get "REC001" =
      some (marshalRecord sampleRecord) ∧
    (submit (AddRecordWith key32 Lib.toy (Env.calm "tx7" (clockAt 5)) "REC002" "P2" "D2" "cold"
      "OtherHosp" "LAB") sampleWorld).2.get "REC001" = some (marshalRecord sampleRecord) ∧
    (submit (VerifyIntegrity Lib.toy (Env.calm "tx7" (clockAt 5)) "REC002") sampleWorld).2.get
      "REC001" = some (marshalRecord sampleRecord) :=
  have h := C11_value_kept_outside_audit_keys key32 Lib.toy (Env.calm "tx7" (clockAt 5))
    sampleWorld "REC001" (marshalRecord sampleRecord) "REC002" "P2" "D2" "cold" "OtherHosp" "LAB"
    rfl (by decide)
    (fun x unix => not_auditKey_of_head "REC001" x unix 'R' ['E', 'C', '0', '0', '1'] rfl
      (by decide))
  ⟨⟨rfl, by decide⟩, h.1, h.2.2.1, h.2.2.2.2.1⟩

theorem World.mem_of_get (w : World) (k : String) (v : Value) (h : w.get k = some v) :
    (k, v) ∈ w := by
  induction w with
  | nil => simp [World.get] at h
  | cons hd tl ih =>
    obtain ⟨k', v'⟩ := hd
    by_cases hk : k' = k
    · simp only [World.get, hk, if_true, Option.some.injEq] at h
      rw [hk, h]
      exact List.mem_cons_self _ _
    · simp only [World.get, hk, if_false] at h
      exact List.mem_cons_of_mem _ (ih h)

theorem World.mem_range (w : World) (startKey endKey : String) (kv : String × Value) :
    kv ∈ w.range startKey endKey ↔ kv ∈ w ∧ inRange startKey endKey kv.1 = true := by
  unfold World.range
  rw [List.mem_insertionSort, List.mem_filter]

/-- C12: for every record id and every unix second, positive or negative, the audit key
"AUDIT_" + record_id + "_" + second lies in the range ["AUDIT_" + record_id,
"AUDIT_" + record_id + "zzz") that `GetAuditTrail` scans; so, when the scan succeeds and every
value in the range decodes, `GetAuditTrail(record_id)` returns the decoded entries of the range
in ascending key order and leaves the ledger as it is, and every audit entry stored under an
audit key of `record_id` is among them. -/
theorem C12_GetAuditTrail_complete (L : Lib) (env : Env) (recordID : String) (w : World)
    (hr : env.rangeFault ("AUDIT_" ++ recordID) ("AUDIT_" ++ recordID ++ "zzz") = none)
    (hn : ∀ k, env.nextFault k = none)
    (hd : ∀ kv ∈ w, inRange ("AUDIT_" ++ recordID) ("AUDIT_" ++ recordID ++ "zzz") kv.1 = true →
      ∃ a, unmarshalAudit L kv.2 = .ok a) :
    (∀ (r : String) (unix : Int),
      inRange ("AUDIT_" ++ r) ("AUDIT_" ++ r ++ "zzz") (auditKey r unix) = true) ∧
    submit (GetAuditTrail L env recordID) w =
      (.ok ((w.range ("AUDIT_" ++ recordID) ("AUDIT_" ++ recordID ++ "zzz")).map
        (decodeAudit L)), w) ∧
    (w.range ("AUDIT_" ++ recordID) ("AUDIT_" ++ recordID ++ "zzz")).Sorted keyLE ∧
    (∀ (unix : Int) (a : AuditLog), w.get (auditKey recordID unix) = some (marshalAudit a) →
      (auditKey recordID unix, marshalAudit a) ∈
          w.range ("AUDIT_" ++ recordID) ("AUDIT_" ++ recordID ++ "zzz") ∧
        a ∈ (w.range ("AUDIT_" ++ recordID) ("AUDIT_" ++ recordID ++ "zzz")).map
          (decodeAudit L)) := by
  refine ⟨auditKey_inRange, GetAuditTrail_ok L env recordID w hr hn hd,
    List.sorted_insertionSort keyLE _, ?_⟩
  intro unix a hget
  have hmem : (auditKey recordID unix, marshalAudit a) ∈
      w.range ("AUDIT_" ++ recordID) ("AUDIT_" ++ recordID ++ "zzz") :=
    (World.mem_range _ _ _ _).2 ⟨World.mem_of_get _ _ _ hget, auditKey_inRange recordID unix⟩
  exact ⟨hmem, List.mem_map.2 ⟨_, hmem, decodeAudit_marshalAudit L _ a⟩⟩

theorem trailWorld_decodes (L : Lib) :
    ∀ kv ∈ trailWorld, inRange ("AUDIT_" ++ "REC001") ("AUDIT_" ++ "REC001" ++ "zzz") kv.1 = true →
      ∃ a, unmarshalAudit L kv.2 = .ok a := by
  intro kv hkv _
  simp only [trailWorld, List.mem_cons, List.mem_singleton, List.not_mem_nil, or_false] at hkv
  rcases hkv with h | h | h <;> rw [h] <;> exact ⟨_, rfl⟩

/-- C12 at a ledger holding the sample record and two audit entries for it, stored later one
first: the trail lists the entry of second 5 before the entry of second 6. -/
theorem C12_GetAuditTrail_complete_witness :
    submit (GetAuditTrail Lib.toy (Env.calm "tx9" (clockAt 9)) "REC001") trailWorld =
      (.ok [⟨"tx1", "REC001", "ADD_RECORD", "D1", ⟨5, 0⟩,
          "Record added for patient P1 at CityHosp"⟩,
        ⟨"tx2", "REC001", "QUERY_RECORD", "SYSTEM", ⟨6, 0⟩, "Record REC001 queried"⟩],
        trailWorld) ∧
    inRange ("AUDIT_" ++ "REC001") ("AUDIT_" ++ "REC001" ++ "zzz") (auditKey "REC001" (-7)) =
      true :=
  have h := C12_GetAuditTrail_complete Lib.toy (Env.calm "tx9" (clockAt 9)) "REC001" trailWorld
    rfl (fun _ => rfl) (trailWorld_decodes Lib.toy)
  ⟨h.2.1, h.1 "REC001" (-7)⟩

/-- C13: `GetAuditTrail` returns entries of other record ids. On the ledger that `InitLedger`
leaves from the empty one, `GetAuditTrail("INIT")` returns the INIT_LEDGER entry, whose record id
is "SYSTEM"; and with a 32-byte key in place of `hospitalKey`, after
`AddRecord("REC0012", ...)` in second 5, `GetAuditTrail("REC001")` returns the ADD_RECORD entry
of "REC0012", whose audit key "AUDIT_REC0012_5" lies in the scanned range. -/
theorem C13_GetAuditTrail_returns_other_records :
    (submit (InitLedger (Env.calm "tx0" (clockAt 3))) []).1 = .ok () ∧
    (submit (GetAuditTrail Lib.toy (Env.calm "tx9" (clockAt 9)) "INIT")
        (submit (InitLedger (Env.calm "tx0" (clockAt 3))) []).2).1 =
      .ok [⟨"tx0", "SYSTEM", "INIT_LEDGER", "SYSTEM", ⟨3, 0⟩,
        "Hyperledger Fabric network initialized"⟩] ∧
    (submit (GetAuditTrail Lib.toy (Env.calm "tx9" (clockAt 9)) "REC001")
        (submit (AddRecordWith key32 Lib.toy (Env.calm "tx1" (clockAt 5)) "REC0012" "P1" "D1"
          "flu" "CityHosp" "EHR") []).2).1 =
      .ok [⟨"tx1", "REC0012", "ADD_RECORD", "D1", ⟨5, 0⟩,
        "Record added for patient P1 at CityHosp"⟩] ∧
    inRange ("AUDIT_" ++ "REC001") ("AUDIT_" ++ "REC001" ++ "zzz") (auditKey "REC0012" 5) =
      true :=
  ⟨rfl, rfl, rfl, by decide⟩

theorem collectRecords_ok (L : Lib) (env : Env) (l : List (String × Value))
    (acc : List HealthRecord) (hn : ∀ kv ∈ l, env.nextFault kv.1 = none)
    (hd : ∀ kv ∈ l, ∃ r, unmarshalRecord L kv.2 = .ok r) :
    collectRecords L env l acc = .ok (acc ++ l.map (decodeRecord L)) := by
  induction l generalizing acc with
  | nil => simp [collectRecords]
  | cons x xs ih =>
    obtain ⟨k, v⟩ := x
    obtain ⟨r, hr⟩ := hd (k, v) (List.mem_cons_self _ _)
    have hk := hn (k, v) (List.mem_cons_self _ _)
    simp only at hr hk
    simp only [collectRecords, hk, hr, List.map_cons, decodeRecord]
    rw [ih _ (fun kv h => hn kv (List.mem_cons_of_mem _ h))
      (fun kv h => hd kv (List.mem_cons_of_mem _ h))]
    simp

/-- C14: when the scan succeeds and every value stored under a key k with "REC" ≤ k < "RECzzz"
decodes, `GetAllRecords` returns the decoded values of exactly the ledger entries with such a
key, in ascending key order, and leaves the ledger and the write set as they are; an entry
under a key outside the range, such as "RECzzzz" or "PAT1", is not among the entries it
decodes. -/
theorem C14_GetAllRecords_lists_range (L : Lib) (env : Env) (w : World) (tx : Tx)
    (hr : env.rangeFault "REC" "RECzzz" = none) (hn : ∀ k, env.nextFault k = none)
    (hd : ∀ kv ∈ w, inRange "REC" "RECzzz" kv.1 = true → ∃ r, unmarshalRecord L kv.2 = .ok r) :
    submit (GetAllRecords L env) w =
      (.ok ((w.range "REC" "RECzzz").map (decodeRecord L)), w) ∧
    GetAllRecords L env w tx = (.ok ((w.range "REC" "RECzzz").map (decodeRecord L)), tx) ∧
    (w.range "REC" "RECzzz").Sorted keyLE ∧
    (w.range "REC" "RECzzz").Perm (w.filter fun kv => inRange "REC" "RECzzz" kv.1) ∧
    (∀ kv, kv ∈ w.range "REC" "RECzzz" ↔
      kv ∈ w ∧ "REC".toList ≤ kv.1.toList ∧ kv.1.toList < "RECzzz".toList) ∧
    (∀ v, ("RECzzzz", v) ∉ w.range "REC" "RECzzz" ∧ ("PAT1", v) ∉ w.range "REC" "RECzzz") := by
  have h : ∀ tx, GetAllRecords L env w tx =
      (.ok ((w.range "REC" "RECzzz").map (decodeRecord L)), tx) := by
    intro tx
    simp only [GetAllRecords, GetStateByRange, hr]
    rw [collectRecords_ok L env _ [] (fun kv _ => hn kv.1)]
    · simp
    · intro kv hkv
      have hm := (World.mem_range _ _ _ _).1 hkv
      exact hd kv hm.1 hm.2
  refine ⟨?_, h tx, List.sorted_insertionSort keyLE _, List.perm_insertionSort keyLE _, ?_, ?_⟩
  · rw [submit_of_ok _ w _ (by rw [h Tx.start]), h Tx.start]
    rfl
  · intro kv
    rw [World.mem_range]
    simp [inRange]
  · intro v
    constructor
    · intro hm
      have hin : inRange "REC" "RECzzz" "RECzzzz" = true := ((World.mem_range _ _ _ _).1 hm).2
      exact absurd hin (by decide)
    · intro hm
      have hin : inRange "REC" "RECzzz" "PAT1" = true := ((World.mem_range _ _ _ _).1 hm).2
      exact absurd hin (by decide)

theorem listingWorld_decodes (L : Lib) :
    ∀ kv ∈ listingWorld, inRange "REC" "RECzzz" kv.1 = true →
      ∃ r, unmarshalRecord L kv.2 = .ok r := by
  intro kv hkv _
  simp only [listingWorld, List.mem_cons, List.mem_singleton, List.not_mem_nil, or_false] at hkv
  rcases hkv with h | h | h | h <;> rw [h] <;> exact ⟨_, rfl⟩

/-- C14 at a ledger holding records under "RECzzzz", "REC002", "PAT1" and "REC001": the listing
is the records of "REC001" and "REC002", in that order. -/
theorem C14_GetAllRecords_lists_range_witness :
    submit (GetAllRecords Lib.toy (Env.calm "tx9" (clockAt 9))) listingWorld =
      (.ok [sampleRecord, { sampleRecord with RecordID := "REC002" }], listingWorld) :=
  (C14_GetAllRecords_lists_range Lib.toy (Env.calm "tx9" (clockAt 9)) listingWorld Tx.start
    rfl (fun _ => rfl) (listingWorld_decodes Lib.toy)).1

end Healthcc
